import Mathlib

/-!
# Fixed-point CORDIC engine (`src/device/cordic.h`, `src/device/round.h`)

A shallow embedding of the device code and the properties proved about it.

Conventions of the embedding
* Every C integer is an `Int`; a value of a `w`-bit signed type lies in
  `[-2^(w-1), 2^(w-1))`, of a `w`-bit unsigned type in `[0, 2^w)`.
  The device code is OpenCL C: `char` 8, `short` 16, `int` 32, `long` 64 bits.
* A conversion to a signed type is `wrapS w`, to an unsigned type `wrapU w`
  (two's complement); arithmetic in a type wraps the same way.
* `>>` on a signed value is the arithmetic shift (`Int.shiftRight`, written `>>>`).
* `&` and `|` act on the two's complement bit pattern of the operands (`andW`, `orW`).
* The register arrays `x_vec`, `y_vec`, `z_vec` of `cordic` are functions `Nat → Int`
  written with `setReg`.
-/

set_option linter.unusedVariables false

namespace Cordic

/-! ## Machine integers -/

/-- Conversion to the `w`-bit signed type (two's complement wrap). -/
def wrapS (w : Nat) (v : Int) : Int :=
  (v + ((2 ^ (w - 1) : Nat) : Int)) % ((2 ^ w : Nat) : Int) - ((2 ^ (w - 1) : Nat) : Int)

/-- Conversion to the `w`-bit unsigned type. -/
def wrapU (w : Nat) (v : Int) : Int := v % ((2 ^ w : Nat) : Int)

/-- The `w`-bit two's complement bit pattern of `v`, as a natural number. -/
def bitsOf (w : Nat) (v : Int) : Nat := (v % ((2 ^ w : Nat) : Int)).toNat

/-- C `a & b` on `w`-bit signed operands. -/
def andW (w : Nat) (a b : Int) : Int := wrapS w ((bitsOf w a &&& bitsOf w b : Nat) : Int)

/-- C `a | b` on `w`-bit signed operands. -/
def orW (w : Nat) (a b : Int) : Int := wrapS w ((bitsOf w a ||| bitsOf w b : Nat) : Int)

/-- C `a & b` on `w`-bit unsigned operands. -/
def andU (w : Nat) (a b : Int) : Int := ((bitsOf w a &&& bitsOf w b : Nat) : Int)

/-- C `a << n` before the result is converted to its type. -/
def shl (a : Int) (n : Nat) : Int := a * ((2 ^ n : Nat) : Int)

/-- The value of a C comparison: 1 when it holds, 0 otherwise. -/
def cmp (p : Prop) [Decidable p] : Int := if p then 1 else 0

/-- Range of `short`. -/
def isShort (v : Int) : Prop := -32768 ≤ v ∧ v ≤ 32767

/-- Range of `int`. -/
def isInt (v : Int) : Prop := -2147483648 ≤ v ∧ v ≤ 2147483647

/-- Range of `long`. -/
def isLong (v : Int) : Prop := -9223372036854775808 ≤ v ∧ v ≤ 9223372036854775807

instance (v : Int) : Decidable (isShort v) := by unfold isShort; infer_instance
instance (v : Int) : Decidable (isInt v) := by unfold isInt; infer_instance
instance (v : Int) : Decidable (isLong v) := by unfold isLong; infer_instance

/-! ## `round.h` -/

/-- Source `round_s(short din, char bits)`: `din` is promoted to `int`, the result is stored
in a `short`. `bits - 1` is the C expression; the source gives it no meaning for `bits = 0`. -/
def round_s (din : Int) (bits : Nat) : Int :=
  if andW 32 (din >>> (bits - 1)) 0x1 = 0x1 then
    wrapS 16 (wrapS 32 ((din >>> bits) + 1))
  else
    wrapS 16 (din >>> bits)

/-- Source `round_i(int din, char bits)`. -/
def round_i (din : Int) (bits : Nat) : Int :=
  if andW 32 (din >>> (bits - 1)) 0x1 = 0x1 then
    wrapS 32 ((din >>> bits) + 1)
  else
    din >>> bits

/-- Source `round_l(long din, char bits)`. -/
def round_l (din : Int) (bits : Nat) : Int :=
  if andW 64 (din >>> (bits - 1)) 0x1 = 0x1 then
    wrapS 64 ((din >>> bits) + 1)
  else
    din >>> bits

/-- The spec's reading of the rounding primitives: round-half-up on a right shift,
`floor((v + 2^(bits-1)) / 2^bits)`. -/
def roundHalfUp (v : Int) (bits : Nat) : Int := (v + 2 ^ (bits - 1)) / 2 ^ bits

/-! ## `cordic.h`: constants and types -/

/-- Source `#define SHIFT 16`. -/
def SHIFT : Nat := 16

/-- Source `#define CORDIC_GAIN (0x9b75)`. -/
def CORDIC_GAIN : Int := 0x9b75

/-- Source `struct vector3`, three `int` fields. -/
structure vector3 where
  x : Int
  y : Int
  z : Int
  deriving DecidableEq, Repr

/-- Source `enum cordic_mode_t`. -/
inductive cordic_mode_t where
  | ROTATION
  | VECTOR
  deriving DecidableEq, Repr

open cordic_mode_t

/-- Source `#define ATANTABLESZ 24`. -/
def ATANTABLESZ : Nat := 24

/-- Source `__constant int atanTable[]`. -/
def atanTable : List Int :=
  [4194304, 2476042, 1308273, 664100, 333339, 166832, 83436, 41721, 20861, 10430, 5215, 2608,
   1304, 652, 326, 163, 81, 41, 20, 10, 5, 3, 1, 1]

/-- Source `rot_decision(cordic_mode_t mode, int val)`; `!result` is 1 when `result` is 0. -/
def rot_decision (mode : cordic_mode_t) (val : Int) : Int :=
  let result : Int := if val < 0 then 1 else 0
  if mode = ROTATION then result else (if result = 0 then 1 else 0)

/-! ## `cordic.h`: the pipelined engine -/

/-- The three per-stage register arrays of `cordic` (`long x_vec[ATANTABLESZ+1]`, ...). -/
structure CordicRegs where
  x_vec : Nat → Int
  y_vec : Nat → Int
  z_vec : Nat → Int

/-- Array write `v[i] = val`. -/
def setReg (v : Nat → Int) (i : Nat) (val : Int) : Nat → Int :=
  fun j => if j = i then val else v j

/-- Body of the `for` loop of `cordic` at index `i`. The argument of `rot_decision` is a
`long` passed to an `int` parameter, hence `wrapS 32`; the stage arithmetic is in `long`. -/
def cordicStage (mode : cordic_mode_t) (i : Nat) (r : CordicRegs) : CordicRegs :=
  let val : Int := if mode = ROTATION then r.z_vec i else r.y_vec i
  if rot_decision mode (wrapS 32 val) ≠ 0 then
    { x_vec := setReg r.x_vec (i + 1) (wrapS 64 (r.x_vec i + (r.y_vec i >>> i)))
      y_vec := setReg r.y_vec (i + 1) (wrapS 64 (r.y_vec i - (r.x_vec i >>> i)))
      z_vec := setReg r.z_vec (i + 1) (wrapS 64 (r.z_vec i + atanTable.getD i 0)) }
  else
    { x_vec := setReg r.x_vec (i + 1) (wrapS 64 (r.x_vec i - (r.y_vec i >>> i)))
      y_vec := setReg r.y_vec (i + 1) (wrapS 64 (r.y_vec i + (r.x_vec i >>> i)))
      z_vec := setReg r.z_vec (i + 1) (wrapS 64 (r.z_vec i - atanTable.getD i 0)) }

/-- The loop `for (int i = 0; i < n; i++)` of `cordic`: stages `0 .. n-1` in order. -/
def cordicLoop (mode : cordic_mode_t) : Nat → CordicRegs → CordicRegs
  | 0, r => r
  | n + 1, r => cordicStage mode n (cordicLoop mode n r)

/-- Source `vector3 cordic(long x, long y, long z, cordic_mode_t mode)`; the fields of the
result are `int`, so the last stage is narrowed to 32 bits. -/
def cordic (x y z : Int) (mode : cordic_mode_t) : vector3 :=
  let r0 : CordicRegs :=
    { x_vec := setReg (fun _ => 0) 0 x
      y_vec := setReg (fun _ => 0) 0 y
      z_vec := setReg (fun _ => 0) 0 z }
  let r := cordicLoop mode ATANTABLESZ r0
  { x := wrapS 32 (r.x_vec ATANTABLESZ)
    y := wrapS 32 (r.y_vec ATANTABLESZ)
    z := wrapS 32 (r.z_vec ATANTABLESZ) }

/-! ## The engine as the specification words it -/

/-- The spec's decision bit: in `ROTATION` mode 1 iff `z_i < 0`, in `VECTOR` mode 1 iff
`y_i ≥ 0`. -/
def specDecision (mode : cordic_mode_t) (t : Int × Int × Int) : Bool :=
  match mode with
  | ROTATION => decide (t.2.2 < 0)
  | VECTOR => decide (0 ≤ t.2.1)

/-- The spec's step `i` on unbounded integers; `/` by a positive power of two is the floor
(arithmetic) shift, and both shifts read the stage-`i` values. -/
def specStep (mode : cordic_mode_t) (i : Nat) (t : Int × Int × Int) : Int × Int × Int :=
  if specDecision mode t = true then
    (t.1 + t.2.1 / 2 ^ i, t.2.1 - t.1 / 2 ^ i, t.2.2 + atanTable.getD i 0)
  else
    (t.1 - t.2.1 / 2 ^ i, t.2.1 + t.1 / 2 ^ i, t.2.2 - atanTable.getD i 0)

/-- The triple after the spec's steps `0 .. n-1`. -/
def specIter (mode : cordic_mode_t) : Nat → Int × Int × Int → Int × Int × Int
  | 0, t => t
  | n + 1, t => specStep mode n (specIter mode n t)

/-- All three components of a triple are values of `int`. -/
def fitsInt (t : Int × Int × Int) : Prop := isInt t.1 ∧ isInt t.2.1 ∧ isInt t.2.2

instance (t : Int × Int × Int) : Decidable (fitsInt t) := by unfold fitsInt; infer_instance

/-- All three components of a triple are values of `long`, the type of the stage registers. -/
def fitsLong (t : Int × Int × Int) : Prop := isLong t.1 ∧ isLong t.2.1 ∧ isLong t.2.2

instance (t : Int × Int × Int) : Decidable (fitsLong t) := by unfold fitsLong; infer_instance

/-- The component of a stage triple that the decision reads: `z` in `ROTATION` mode, `y` in
`VECTOR` mode (the source's `val = &z_vec[i]` or `val = &y_vec[i]`). -/
def stageOperand (mode : cordic_mode_t) (t : Int × Int × Int) : Int :=
  if mode = ROTATION then t.2.2 else t.2.1

/-- The value `v` keeps its sign when it is narrowed to the `int` parameter of
`rot_decision`; every value of `int` does. -/
def signKept (v : Int) : Prop := wrapS 32 v < 0 ↔ v < 0

instance (v : Int) : Decidable (signKept v) := by unfold signKept; infer_instance

/-- A triple as a `vector3`. -/
def toVector3 (t : Int × Int × Int) : vector3 := { x := t.1, y := t.2.1, z := t.2.2 }

/-! ## `cordic.h`: quadrant normalizer and entry points -/

/-- Source `checkQuadrant(short x, short y, short z)`. The tests use the bitwise `&` on the
comparison results; `xtmp` and `ytmp` are `int`, the stores into `x` and `y` narrow to
`short`. -/
def checkQuadrant (x y z : Int) : vector3 :=
  let quadrant : Int :=
    if andW 32 (cmp (x > 0)) (cmp (y ≥ 0)) ≠ 0 then 0
    else if andW 32 (cmp (x ≤ 0)) (cmp (y > 0)) ≠ 0 then 1
    else if andW 32 (cmp (x < 0)) (cmp (y ≤ 0)) ≠ 0 then 2
    else 3
  let xy : Int × Int :=
    if andW 32 (cmp (x ≥ 0)) (cmp (y ≥ 0)) ≠ 0 then (x, y)
    else if andW 32 (cmp (x < 0)) (cmp (y ≥ 0)) ≠ 0 then
      let xtmp : Int := wrapS 32 (-x)
      (y, wrapS 16 xtmp)
    else if andW 32 (cmp (x < 0)) (cmp (y < 0)) ≠ 0 then
      (wrapS 16 (wrapS 32 (-x)), wrapS 16 (wrapS 32 (-y)))
    else
      let ytmp : Int := wrapS 32 (-y)
      (wrapS 16 ytmp, x)
  { x := xy.1, y := xy.2, z := quadrant }

/-- Source `unsigned short arctan_cordic(short x, short y)`. `xi` and `yi` are computed and
never read. `quadrant` is a `char`, `atan_i` an `unsigned int` passed to the `int` parameter
of `round_i`, `atan_1q` and the result `unsigned short`. -/
def arctan_cordic (x y : Int) : Int :=
  let xi : Int := wrapS 32 (shl x SHIFT)
  let yi : Int := wrapS 32 (shl y SHIFT)
  if x = 0 then
    if y ≥ 0 then 16384 else 49152
  else if y = 0 then
    if x ≥ 0 then 0 else 32768
  else
    let inp := checkQuadrant x y 0
    let quadrant : Int := wrapS 8 inp.z
    let atan_i : Int := wrapU 32 (cordic inp.x inp.y 0 VECTOR).z
    let atan_1q : Int := wrapU 16 (round_i (wrapS 32 atan_i) 9)
    wrapU 16 (orW 32 (wrapS 32 (shl quadrant 14)) (andW 32 atan_1q 0x3fff))

/-- Source `unsigned int arctan_cordic_24b(short x, short y)`. The sum of the `int`
`quadrant << 22` and the `unsigned int` `atan_1q` is formed in `unsigned int`. -/
def arctan_cordic_24b (x y : Int) : Int :=
  let xi : Int := wrapS 32 (shl x SHIFT)
  let yi : Int := wrapS 32 (shl y SHIFT)
  if x = 0 then
    if y ≥ 0 then 0x400000 else 0xc00000
  else if y = 0 then
    if x ≥ 0 then 0 else 0x800000
  else
    let inp := checkQuadrant x y 0
    let quadrant : Int := wrapS 8 inp.z
    let atan_i : Int := wrapU 32 (cordic inp.x inp.y 0 VECTOR).z
    let atan_1q : Int := wrapU 32 (round_i (wrapS 32 atan_i) 1)
    andU 32 (wrapU 32 (wrapS 32 (shl quadrant 22) + atan_1q)) 0xffffff

/-- Source `unsigned int mag_cordic(int x, int y)`. The product is formed in
`unsigned long`, passed to the `long` parameter of `round_l`, and the rounded value is cast
to `unsigned int`. -/
def mag_cordic (x y : Int) : Int :=
  let x : Int := if x < 0 then wrapS 32 (-x) else x
  let y : Int := if y < 0 then wrapS 32 (-y) else y
  let magScaled : Int := wrapU 32 (cordic x y 0 VECTOR).x
  let mag : Int := wrapU 64 (wrapU 64 magScaled * wrapU 64 CORDIC_GAIN)
  let magScaled_l : Int := round_l (wrapS 64 mag) 16
  let magScaled_rnd : Int := wrapU 32 magScaled_l
  magScaled_rnd

/-- Source `unsigned long mag_cordic_l(int x, int y)`. -/
def mag_cordic_l (x y : Int) : Int :=
  let x : Int := if x < 0 then wrapS 32 (-x) else x
  let y : Int := if y < 0 then wrapS 32 (-y) else y
  let magScaled : Int := wrapU 32 (cordic x y 0 VECTOR).x
  let mag : Int := wrapU 64 (wrapU 64 magScaled * wrapU 64 CORDIC_GAIN)
  mag

/-- Source `struct cos_sin`, two `int` fields. -/
structure cos_sin where
  cos : Int
  sin : Int
  deriving DecidableEq, Repr

/-- The locals `theta_corrected`, `invert_cos`, `invert_sin` of `sin_cos_cordic_24b`, which
are declared without an initial value: `none` until one of the four `if`s assigns them. -/
structure SinCosLocals where
  theta_corrected : Option Int
  invert_cos : Option Int
  invert_sin : Option Int
  deriving DecidableEq, Repr

/-- The four `if`s of `sin_cos_cordic_24b`, run in sequence on the locals. -/
def sinCosSelect (bit23 bit22 theta_22b : Int) : SinCosLocals :=
  let l0 : SinCosLocals := { theta_corrected := none, invert_cos := none, invert_sin := none }
  let l1 : SinCosLocals :=
    if andW 32 (cmp (bit23 = 0)) (cmp (bit22 = 0)) ≠ 0 then
      { theta_corrected := some theta_22b, invert_cos := some 0, invert_sin := some 0 }
    else l0
  let l2 : SinCosLocals :=
    if andW 32 (cmp (bit23 = 0)) (cmp (bit22 = 1)) ≠ 0 then
      { theta_corrected := some (wrapS 32 (0x003fffff - theta_22b)),
        invert_cos := some 1, invert_sin := some 0 }
    else l1
  let l3 : SinCosLocals :=
    if andW 32 (cmp (bit23 = 1)) (cmp (bit22 = 0)) ≠ 0 then
      { theta_corrected := some theta_22b, invert_cos := some 1, invert_sin := some 1 }
    else l2
  if andW 32 (cmp (bit23 = 1)) (cmp (bit22 = 1)) ≠ 0 then
    { theta_corrected := some (wrapS 32 (0x003fffff - theta_22b)),
      invert_cos := some 0, invert_sin := some 1 }
  else l3

/-- The tail of `sin_cos_cordic_24b`: the engine call and the two negations, reading the
locals; `none` when a local would be read without having been assigned. -/
def sinCosApply (l : SinCosLocals) : Option cos_sin :=
  match l.theta_corrected, l.invert_cos, l.invert_sin with
  | some theta_corrected, some invert_cos, some invert_sin =>
    let cordic_gain_inv_24b : Int := 0x9B6F23
    let output := cordic cordic_gain_inv_24b 0 (wrapS 32 (shl theta_corrected 1)) ROTATION
    some
      { cos := if invert_cos = 1 then wrapS 32 (-output.x) else output.x
        sin := if invert_sin = 1 then wrapS 32 (-output.y) else output.y }
  | _, _, _ => none

/-- Source `struct cos_sin sin_cos_cordic_24b(int theta)`; `bit22` and `bit23` are `char`. -/
def sin_cos_cordic_24b (theta : Int) : Option cos_sin :=
  let bit22 : Int := wrapS 8 (andW 32 (theta >>> (22 : Nat)) 0x1)
  let bit23 : Int := wrapS 8 (andW 32 (theta >>> (23 : Nat)) 0x1)
  let theta_22b : Int := andW 32 theta 0x003fffff
  sinCosApply (sinCosSelect bit23 bit22 theta_22b)

/-- Body of the loop of the sequential reference `cordic` kept in the source as a comment:
the registers `x`, `y`, `z` are updated in place and `x_temp` holds the pre-update `x`. -/
def cordicSeqStage (mode : cordic_mode_t) (i : Nat) (s : Int × Int × Int) : Int × Int × Int :=
  let x : Int := s.1
  let y : Int := s.2.1
  let z : Int := s.2.2
  let x_temp : Int := x
  let val : Int := if mode = ROTATION then z else y
  if rot_decision mode (wrapS 32 val) ≠ 0 then
    let x : Int := wrapS 64 (x + (y >>> i))
    let y : Int := wrapS 64 (y - (x_temp >>> i))
    let z : Int := wrapS 64 (z + atanTable.getD i 0)
    (x, y, z)
  else
    let x : Int := wrapS 64 (x - (y >>> i))
    let y : Int := wrapS 64 (y + (x_temp >>> i))
    let z : Int := wrapS 64 (z - atanTable.getD i 0)
    (x, y, z)

/-- The loop `for (i = 0; i < n; i++)` of the sequential reference. -/
def cordicSeqLoop (mode : cordic_mode_t) : Nat → Int × Int × Int → Int × Int × Int
  | 0, s => s
  | n + 1, s => cordicSeqStage mode n (cordicSeqLoop mode n s)

/-- The sequential reference `cordic(long x, long y, long z, cordic_mode_t mode)` of the
source comment. -/
def cordic_seq (x y z : Int) (mode : cordic_mode_t) : vector3 :=
  let s := cordicSeqLoop mode ATANTABLESZ (x, y, z)
  { x := wrapS 32 s.1, y := wrapS 32 s.2.1, z := wrapS 32 s.2.2 }

/-- The absolute value as the spec words it, in the 32-bit type of the operand. -/
def abs32 (v : Int) : Int := wrapS 32 |v|

/-- The spec's fold of `(x, y)` by the quadrant index `q`: quadrant 0 unchanged,
1 to `(y, -x)`, 2 to `(-x, -y)`, 3 to `(-y, x)`. -/
def specFold (q x y : Int) : Int × Int :=
  if q = 0 then (x, y)
  else if q = 1 then (y, -x)
  else if q = 2 then (-x, -y)
  else (-y, x)

/-- The spec's quadrant index of `(x, y)`. -/
def specQuadrant (x y : Int) : Int :=
  if x > 0 ∧ y ≥ 0 then 0
  else if x ≤ 0 ∧ y > 0 then 1
  else if x < 0 ∧ y ≤ 0 then 2
  else 3


/-- A bound on `|x_i|` and `|y_i|` after `i` steps from components of size at most `2^24`:
each step adds at most the floor-shifted other component, rounded away from zero. -/
def stageBound : Nat → Int
  | 0 => 16777216
  | n + 1 => stageBound n + stageBound n / 2 ^ n + 1

/-- Bit `k` of `theta` as the spec's truth table reads it (0 or 1). -/
def specBit (theta : Int) (k : Nat) : Int := theta / 2 ^ k % 2

/-- The spec's folded angle: the low 22 bits of `theta`, mirrored (`0x3FFFFF - t`) when bit 22
is set. -/
def specFoldAngle (theta : Int) : Int :=
  if specBit theta 22 = 0 then theta % 4194304 else 0x3FFFFF - theta % 4194304

/-- The spec's sine/cosine: the engine in `ROTATION` mode from `(0x9B6F23, 0, f << 1)`, the
cosine negated when bit 23 differs from bit 22, the sine negated when bit 23 is set. -/
def specSinCos (theta : Int) : cos_sin :=
  let out := cordic 0x9B6F23 0 (specFoldAngle theta * 2) ROTATION
  { cos := if specBit theta 23 ≠ specBit theta 22 then -out.x else out.x
    sin := if specBit theta 23 = 1 then -out.y else out.y }

/-- The square of the gain `K` accumulated by the 24 pseudo-rotations, as the spec words it:
`K^2` is the product of `1 + 4^-i` over the stages `i = 0..23`. -/
def cordicGainSq : ℚ := ∏ i ∈ Finset.range ATANTABLESZ, (1 + 1 / (4 : ℚ) ^ i)

/-- The convergence bound of the angle accumulator before stage `n`: the last table entry plus
the entries `n .. 23` still to be applied. -/
def zBound (n : Nat) : Int := atanTable.getD 23 0 + (atanTable.drop n).sum

/-- The initial register file of `cordic`: `x_vec[0] = x`, `y_vec[0] = y`, `z_vec[0] = z`. -/
def cordicInit (x y z : Int) : CordicRegs :=
  { x_vec := setReg (fun _ => 0) 0 x
    y_vec := setReg (fun _ => 0) 0 y
    z_vec := setReg (fun _ => 0) 0 z }

/-- The local constant `cordic_gain_inv_24b` of `sin_cos_cordic_24b`, commented in the source
as `(1/1.647 * 2^24)`. -/
def cordic_gain_inv_24b : Int := 0x9B6F23

/-- The third argument of the call of `cordic` in `sin_cos_cordic_24b`, `theta_corrected<<1`,
read off the locals after the four `if`s. -/
def sinCosAngle (theta : Int) : Option Int :=
  let bit22 : Int := wrapS 8 (andW 32 (theta >>> (22 : Nat)) 0x1)
  let bit23 : Int := wrapS 8 (andW 32 (theta >>> (23 : Nat)) 0x1)
  let theta_22b : Int := andW 32 theta 0x003fffff
  (sinCosSelect bit23 bit22 theta_22b).theta_corrected.map (fun t => wrapS 32 (shl t 1))

/-! ## Machine-integer lemmas -/

theorem two_pow_pred (w : Nat) (hw : 0 < w) : (2 : Nat) ^ w = 2 * 2 ^ (w - 1) := by
  obtain ⟨k, rfl⟩ : ∃ k, w = k + 1 := ⟨w - 1, by omega⟩
  simp [pow_succ, mul_comm]

theorem wrapS_of_range (w : Nat) (hw : 0 < w) (v : Int)
    (h1 : -((2 ^ (w - 1) : Nat) : Int) ≤ v) (h2 : v < ((2 ^ (w - 1) : Nat) : Int)) :
    wrapS w v = v := by
  unfold wrapS
  have hp : ((2 ^ w : Nat) : Int) = 2 * ((2 ^ (w - 1) : Nat) : Int) := by
    rw [two_pow_pred w hw]; push_cast; ring
  rw [hp, Int.emod_eq_of_lt (by omega) (by omega)]
  omega

theorem wrapS16_of_isShort (v : Int) (h : isShort v) : wrapS 16 v = v := by
  unfold isShort at h
  exact wrapS_of_range 16 (by decide) v (by norm_num; omega) (by norm_num; omega)

theorem wrapS32_of_isInt (v : Int) (h : isInt v) : wrapS 32 v = v := by
  unfold isInt at h
  exact wrapS_of_range 32 (by decide) v (by norm_num; omega) (by norm_num; omega)

theorem wrapS64_of_isLong (v : Int) (h : isLong v) : wrapS 64 v = v := by
  unfold isLong at h
  exact wrapS_of_range 64 (by decide) v (by norm_num; omega) (by norm_num; omega)

theorem bitsOf_cast (w : Nat) (v : Int) : ((bitsOf w v : Nat) : Int) = v % ((2 ^ w : Nat) : Int) := by
  unfold bitsOf
  apply Int.toNat_of_nonneg
  apply Int.emod_nonneg
  have : 0 < 2 ^ w := Nat.two_pow_pos _
  omega

theorem bitsOf_natCast (w n : Nat) (h : n < 2 ^ w) : bitsOf w (n : Int) = n := by
  unfold bitsOf
  rw [← Int.natCast_mod, Int.toNat_natCast, Nat.mod_eq_of_lt h]

/-- Masking with `2^k - 1` keeps the low `k` bits: the value modulo `2^k`. -/
theorem andW_mask (w k : Nat) (hk : k < w) (v : Int) :
    andW w v (((2 ^ k - 1 : Nat) : Int)) = v % ((2 ^ k : Nat) : Int) := by
  unfold andW
  have hkw : 2 ^ k ≤ 2 ^ (w - 1) := Nat.pow_le_pow_right (by decide) (by omega)
  have hw1 : 2 ^ (w - 1) < 2 ^ w := Nat.pow_lt_pow_right (by decide) (by omega)
  have hpos : 0 < 2 ^ k := Nat.two_pow_pos _
  rw [bitsOf_natCast w (2 ^ k - 1) (by omega), Nat.and_pow_two_sub_one_eq_mod]
  have h2 : ((bitsOf w v % 2 ^ k : Nat) : Int) = v % ((2 ^ k : Nat) : Int) := by
    rw [Int.natCast_mod, bitsOf_cast, Int.emod_emod_of_dvd]
    exact Int.natCast_dvd_natCast.mpr (pow_dvd_pow 2 (by omega))
  rw [h2]
  have hnn : 0 ≤ v % ((2 ^ k : Nat) : Int) := Int.emod_nonneg _ (by omega)
  have hlt : v % ((2 ^ k : Nat) : Int) < ((2 ^ k : Nat) : Int) := Int.emod_lt_of_pos _ (by omega)
  apply wrapS_of_range w (by omega)
  · omega
  · omega

theorem andW32_one (v : Int) : andW 32 v 1 = v % 2 := by
  have := andW_mask 32 1 (by decide) v
  simpa using this

theorem andW64_one (v : Int) : andW 64 v 1 = v % 2 := by
  have := andW_mask 64 1 (by decide) v
  simpa using this

theorem shiftRight_eq_div (v : Int) (n : Nat) : v >>> n = v / 2 ^ n := by
  rw [Int.shiftRight_eq_div_pow]; push_cast; rfl

/-- Bit `k` of a two's complement integer, read off by division. -/
theorem testBit_iff_div_mod (v : Int) (k : Nat) : v.testBit k = true ↔ (v / 2 ^ k) % 2 = 1 := by
  rw [← shiftRight_eq_div]
  cases v with
  | ofNat m =>
    have h1 : (Int.ofNat m) >>> k = ((m >>> k : Nat) : Int) := rfl
    have h2 : (Int.ofNat m).testBit k = m.testBit k := rfl
    rw [h1, h2, Nat.testBit_to_div_mod, Nat.shiftRight_eq_div_pow]
    simp only [decide_eq_true_eq]
    omega
  | negSucc m =>
    have h1 : (Int.negSucc m) >>> k = Int.negSucc (m >>> k) := rfl
    have h2 : (Int.negSucc m).testBit k = !m.testBit k := rfl
    rw [h1, h2, Nat.testBit_to_div_mod, Nat.shiftRight_eq_div_pow, Int.negSucc_emod _ (by decide)]
    simp only [Bool.not_eq_true', decide_eq_false_iff_not]
    omega

theorem ediv_mul_two (v h : Int) (hpos : 0 < h) : v / (h * 2) = (v / h) / 2 := by
  have hq := Int.emod_add_ediv v h
  have hr0 := Int.emod_nonneg v (ne_of_gt hpos)
  have hr1 := Int.emod_lt_of_pos v hpos
  have hk := Int.emod_add_ediv (v / h) 2
  rcases Int.emod_two_eq (v / h) with h2 | h2
  · have e : h * (v / h) = h * 2 * (v / h / 2) := by
      have : v / h = 2 * (v / h / 2) := by omega
      rw [mul_assoc, ← this]
    exact ((Int.ediv_emod_unique (by omega : 0 < h * 2)).2
      ⟨by rw [← e]; exact hq, hr0, by omega⟩).1
  · have e : h * (v / h) = h + h * 2 * (v / h / 2) := by
      have : v / h = 1 + 2 * (v / h / 2) := by omega
      rw [mul_assoc]
      calc h * (v / h) = h * (1 + 2 * (v / h / 2)) := by rw [← this]
        _ = h + h * (2 * (v / h / 2)) := by ring
    have : (v % h + h) + h * 2 * (v / h / 2) = v := by rw [add_assoc, ← e]; exact hq
    exact ((Int.ediv_emod_unique (by omega : 0 < h * 2)).2 ⟨this, by omega, by omega⟩).1

/-- Round-half-up on a right shift is the shifted value plus the bit below the cut. -/
theorem roundHalfUp_eq (v : Int) (b : Nat) (hb : 1 ≤ b) :
    roundHalfUp v b = v / 2 ^ b + (if (v / 2 ^ (b - 1)) % 2 = 1 then 1 else 0) := by
  unfold roundHalfUp
  obtain ⟨k, rfl⟩ : ∃ k, b = k + 1 := ⟨b - 1, by omega⟩
  simp only [Nat.add_sub_cancel]
  have hpos : (0 : Int) < 2 ^ k := by positivity
  have e1 : (v + 2 ^ k) / (2 : Int) ^ (k + 1) = ((v + 2 ^ k) / 2 ^ k) / 2 := by
    rw [pow_succ, ediv_mul_two _ _ hpos]
  have e2 : v / (2 : Int) ^ (k + 1) = (v / 2 ^ k) / 2 := by
    rw [pow_succ, ediv_mul_two _ _ hpos]
  have e3 : (v + 2 ^ k) / (2 : Int) ^ k = v / 2 ^ k + 1 := by
    rw [Int.add_ediv_of_dvd_right (dvd_refl _), Int.ediv_self (ne_of_gt hpos)]
  rw [e1, e2, e3]
  split <;> omega


theorem roundCond32 (v : Int) (k : Nat) : andW 32 (v >>> k) 0x1 = 0x1 ↔ v.testBit k = true := by
  rw [andW32_one, shiftRight_eq_div, testBit_iff_div_mod]

theorem roundCond64 (v : Int) (k : Nat) : andW 64 (v >>> k) 0x1 = 0x1 ↔ v.testBit k = true := by
  rw [andW64_one, shiftRight_eq_div, testBit_iff_div_mod]

/-- A value in `[-2M, 2M)` shifted right by at least one bit lies in `[-M, M)`. -/
theorem shiftRight_bounds (v M : Int) (bits : Nat) (hb : 1 ≤ bits) (hM : 0 ≤ M)
    (h1 : -(2 * M) ≤ v) (h2 : v < 2 * M) : -M ≤ v >>> bits ∧ v >>> bits < M := by
  rw [shiftRight_eq_div]
  have hc : (2 : Int) ≤ 2 ^ bits := by
    calc (2 : Int) = 2 ^ 1 := by norm_num
      _ ≤ 2 ^ bits := pow_le_pow_right₀ (by norm_num) hb
  have hpos : (0 : Int) < 2 ^ bits := by omega
  constructor
  · rw [Int.le_ediv_iff_mul_le hpos]
    nlinarith
  · rw [Int.ediv_lt_iff_lt_mul hpos]
    nlinarith

/-- The rounded value in terms of the shifted value and the bit below the cut. -/
theorem roundHalfUp_testBit (v : Int) (bits : Nat) (hb : 1 ≤ bits) :
    roundHalfUp v bits = if v.testBit (bits - 1) = true then (v >>> bits) + 1 else v >>> bits := by
  rw [roundHalfUp_eq v bits hb, shiftRight_eq_div]
  by_cases h : v.testBit (bits - 1) = true
  · rw [if_pos h, if_pos ((testBit_iff_div_mod _ _).1 h)]
  · rw [if_neg h, if_neg (fun h2 => h ((testBit_iff_div_mod _ _).2 h2))]; omega

theorem round_s_eq (v : Int) (bits : Nat) (hb : 1 ≤ bits) (hv : isShort v) :
    round_s v bits = if v.testBit (bits - 1) = true then (v >>> bits) + 1 else v >>> bits := by
  unfold isShort at hv
  have hs := shiftRight_bounds v 16384 bits hb (by norm_num) (by omega) (by omega)
  unfold round_s
  by_cases h : v.testBit (bits - 1) = true
  · rw [if_pos ((roundCond32 _ _).2 h), if_pos h,
      wrapS32_of_isInt _ (by unfold isInt; omega), wrapS16_of_isShort _ (by unfold isShort; omega)]
  · rw [if_neg (fun h2 => h ((roundCond32 _ _).1 h2)), if_neg h,
      wrapS16_of_isShort _ (by unfold isShort; omega)]

theorem round_i_eq (v : Int) (bits : Nat) (hb : 1 ≤ bits) (hv : isInt v) :
    round_i v bits = if v.testBit (bits - 1) = true then (v >>> bits) + 1 else v >>> bits := by
  unfold isInt at hv
  have hs := shiftRight_bounds v 1073741824 bits hb (by norm_num) (by omega) (by omega)
  unfold round_i
  by_cases h : v.testBit (bits - 1) = true
  · rw [if_pos ((roundCond32 _ _).2 h), if_pos h, wrapS32_of_isInt _ (by unfold isInt; omega)]
  · rw [if_neg (fun h2 => h ((roundCond32 _ _).1 h2)), if_neg h]

theorem round_l_eq (v : Int) (bits : Nat) (hb : 1 ≤ bits) (hv : isLong v) :
    round_l v bits = if v.testBit (bits - 1) = true then (v >>> bits) + 1 else v >>> bits := by
  unfold isLong at hv
  have hs := shiftRight_bounds v 4611686018427387904 bits hb (by norm_num) (by omega) (by omega)
  unfold round_l
  by_cases h : v.testBit (bits - 1) = true
  · rw [if_pos ((roundCond64 _ _).2 h), if_pos h, wrapS64_of_isLong _ (by unfold isLong; omega)]
  · rw [if_neg (fun h2 => h ((roundCond64 _ _).1 h2)), if_neg h]

theorem isInt_of_isShort (v : Int) (h : isShort v) : isInt v := by
  unfold isShort at h; unfold isInt; omega

theorem isLong_of_isInt (v : Int) (h : isInt v) : isLong v := by
  unfold isInt at h; unfold isLong; omega

/-! ## The rounding primitives -/

/-- C2: for `1 ≤ bits < width` each of `round_s` (16-bit operand), `round_i` (32-bit) and
`round_l` (64-bit) returns `(v >> bits) + 1` when bit `bits - 1` of `v` is set and `v >> bits`
otherwise, which is round-half-up `floor((v + 2^(bits-1)) / 2^bits)` for every sign of `v`;
on a 16-bit `v` with `1 ≤ bits ≤ 15` the three functions agree. -/
theorem round_half_up_contract (v : Int) (bits : Nat) (hb : 1 ≤ bits) :
    (isShort v → bits < 16 →
      round_s v bits = (if v.testBit (bits - 1) = true then (v >>> bits) + 1 else v >>> bits) ∧
      round_s v bits = roundHalfUp v bits) ∧
    (isInt v → bits < 32 →
      round_i v bits = (if v.testBit (bits - 1) = true then (v >>> bits) + 1 else v >>> bits) ∧
      round_i v bits = roundHalfUp v bits) ∧
    (isLong v → bits < 64 →
      round_l v bits = (if v.testBit (bits - 1) = true then (v >>> bits) + 1 else v >>> bits) ∧
      round_l v bits = roundHalfUp v bits) ∧
    (isShort v → bits ≤ 15 → round_s v bits = round_i v bits ∧ round_i v bits = round_l v bits) := by
  refine ⟨fun hv _ => ⟨round_s_eq v bits hb hv, ?_⟩, fun hv _ => ⟨round_i_eq v bits hb hv, ?_⟩,
    fun hv _ => ⟨round_l_eq v bits hb hv, ?_⟩, fun hv _ => ⟨?_, ?_⟩⟩
  · rw [round_s_eq v bits hb hv, roundHalfUp_testBit v bits hb]
  · rw [round_i_eq v bits hb hv, roundHalfUp_testBit v bits hb]
  · rw [round_l_eq v bits hb hv, roundHalfUp_testBit v bits hb]
  · rw [round_s_eq v bits hb hv, round_i_eq v bits hb (isInt_of_isShort v hv)]
  · rw [round_i_eq v bits hb (isInt_of_isShort v hv),
      round_l_eq v bits hb (isLong_of_isInt v (isInt_of_isShort v hv))]

/-- Witness of C2 at `v = -5`, `bits = 1`: bit 0 of `-5` is set, `-5 >> 1 = -3`, and all three
functions return `-2 = floor((-5 + 1) / 2)`. -/
theorem round_half_up_contract_witness :
    (1 ≤ 1 ∧ isShort (-5) ∧ isInt (-5) ∧ isLong (-5)) ∧
    (round_s (-5) 1 = roundHalfUp (-5) 1 ∧ round_i (-5) 1 = roundHalfUp (-5) 1 ∧
      round_l (-5) 1 = roundHalfUp (-5) 1 ∧ round_s (-5) 1 = round_i (-5) 1 ∧
      round_i (-5) 1 = round_l (-5) 1) ∧ roundHalfUp (-5) 1 = -2 :=
  ⟨by decide,
   ⟨((round_half_up_contract (-5) 1 (by decide)).1 (by decide) (by decide)).2,
    ((round_half_up_contract (-5) 1 (by decide)).2.1 (by decide) (by decide)).2,
    ((round_half_up_contract (-5) 1 (by decide)).2.2.1 (by decide) (by decide)).2,
    ((round_half_up_contract (-5) 1 (by decide)).2.2.2 (by decide) (by decide)).1,
    ((round_half_up_contract (-5) 1 (by decide)).2.2.2 (by decide) (by decide)).2⟩,
   by decide⟩


/-! ## The engine against the spec's step -/

theorem atanTable_bounds (i : Nat) : 0 ≤ atanTable.getD i 0 ∧ atanTable.getD i 0 ≤ 4194304 := by
  by_cases h : i < 24
  · interval_cases i <;> simp [atanTable]
  · rw [List.getD_eq_default _ _ (by simp [atanTable]; omega)]
    omega

/-- An `int` value shifted right by any amount is still an `int` value. -/
theorem shiftRight_isInt (v : Int) (n : Nat) (h : isInt v) : isInt (v >>> n) := by
  unfold isInt at *
  rw [shiftRight_eq_div]
  have hc : (1 : Int) ≤ 2 ^ n := one_le_pow₀ (by norm_num)
  have hpos : (0 : Int) < 2 ^ n := by omega
  constructor
  · rw [Int.le_ediv_iff_mul_le hpos]
    nlinarith
  · have : v / 2 ^ n < 2147483648 := by
      rw [Int.ediv_lt_iff_lt_mul hpos]
      nlinarith
    omega

theorem rot_decision_ne_zero (mode : cordic_mode_t) (t : Int × Int × Int) :
    rot_decision mode (if mode = ROTATION then t.2.2 else t.2.1) ≠ 0 ↔
      specDecision mode t = true := by
  cases mode
  · simp only [rot_decision, specDecision, if_true, decide_eq_true_eq]
    by_cases h : t.2.2 < 0 <;> simp [h]
  · simp only [rot_decision, specDecision, decide_eq_true_eq]
    by_cases h : t.2.1 < 0
    · simp [h]
    · simp [h]; omega

/-- One stage of the register file agrees with the spec's step when the stage input fits
in `int`. -/
theorem cordicStage_spec (mode : cordic_mode_t) (n : Nat) (r : CordicRegs) (t : Int × Int × Int)
    (hr : (r.x_vec n, r.y_vec n, r.z_vec n) = t) (hfit : fitsInt t) :
    ((cordicStage mode n r).x_vec (n + 1), (cordicStage mode n r).y_vec (n + 1),
      (cordicStage mode n r).z_vec (n + 1)) = specStep mode n t := by
  obtain ⟨x, y, z⟩ := t
  simp only [Prod.mk.injEq] at hr
  obtain ⟨hx, hy, hz⟩ := hr
  obtain ⟨fx, fy, fz⟩ := hfit
  simp only at fx fy fz
  have sx := shiftRight_isInt x n fx
  have sy := shiftRight_isInt y n fy
  have ht := atanTable_bounds n
  rw [shiftRight_eq_div] at sx sy
  have hval : wrapS 32 (if mode = ROTATION then r.z_vec n else r.y_vec n) =
      (if mode = ROTATION then z else y) := by
    rw [hz, hy]
    split
    · exact wrapS32_of_isInt _ fz
    · exact wrapS32_of_isInt _ fy
  have hdec := rot_decision_ne_zero mode (x, y, z)
  simp only at hdec
  unfold isInt at fx fy fz sx sy
  unfold cordicStage specStep
  simp only [hval]
  by_cases hd : specDecision mode (x, y, z) = true
  · rw [if_pos (hdec.2 hd), if_pos hd]
    simp only [setReg, if_true, hx, hy, hz, shiftRight_eq_div]
    rw [wrapS64_of_isLong _ (by unfold isLong; omega), wrapS64_of_isLong _ (by unfold isLong; omega),
      wrapS64_of_isLong _ (by unfold isLong; omega)]
  · rw [if_neg (fun h => hd (hdec.1 h)), if_neg hd]
    simp only [setReg, if_true, hx, hy, hz, shiftRight_eq_div]
    rw [wrapS64_of_isLong _ (by unfold isLong; omega), wrapS64_of_isLong _ (by unfold isLong; omega),
      wrapS64_of_isLong _ (by unfold isLong; omega)]

/-- After `n` stages, entry `n` of the register arrays holds the spec's stage-`n` triple,
provided the earlier stage triples fit in `int`. -/
theorem cordicLoop_spec (mode : cordic_mode_t) (r0 : CordicRegs) (t0 : Int × Int × Int)
    (h0 : (r0.x_vec 0, r0.y_vec 0, r0.z_vec 0) = t0) (n : Nat)
    (hfit : ∀ i, i < n → fitsInt (specIter mode i t0)) :
    ((cordicLoop mode n r0).x_vec n, (cordicLoop mode n r0).y_vec n,
      (cordicLoop mode n r0).z_vec n) = specIter mode n t0 := by
  induction n with
  | zero => exact h0
  | succ n ih =>
    have ih2 := ih (fun i hi => hfit i (by omega))
    exact cordicStage_spec mode n (cordicLoop mode n r0) (specIter mode n t0) ih2
      (hfit n (by omega))

/-! ## C1: the engine -/

/-- The decision of `rot_decision` depends on the sign of its argument only. -/
theorem rot_decision_sign (mode : cordic_mode_t) (a b : Int) (h : a < 0 ↔ b < 0) :
    rot_decision mode a = rot_decision mode b := by
  unfold rot_decision
  by_cases hb : b < 0
  · simp only [h.2 hb, hb, if_true]
  · have ha : ¬ a < 0 := fun ha => hb (h.1 ha)
    simp only [ha, hb, if_false]

theorem signKept_of_isInt (v : Int) (h : isInt v) : signKept v := by
  unfold signKept
  rw [wrapS32_of_isInt v h]

/-- One stage of the register file agrees with the spec's step when the decision operand
keeps its sign under the narrowing and the step's result fits the 64-bit registers. -/
theorem cordicStage_spec_long (mode : cordic_mode_t) (n : Nat) (r : CordicRegs)
    (t : Int × Int × Int) (hr : (r.x_vec n, r.y_vec n, r.z_vec n) = t)
    (hsign : signKept (stageOperand mode t)) (hnext : fitsLong (specStep mode n t)) :
    ((cordicStage mode n r).x_vec (n + 1), (cordicStage mode n r).y_vec (n + 1),
      (cordicStage mode n r).z_vec (n + 1)) = specStep mode n t := by
  obtain ⟨x, y, z⟩ := t
  simp only [Prod.mk.injEq] at hr
  obtain ⟨hx, hy, hz⟩ := hr
  have hval : rot_decision mode (wrapS 32 (if mode = ROTATION then r.z_vec n else r.y_vec n)) =
      rot_decision mode (if mode = ROTATION then z else y) := by
    rw [hz, hy]
    exact rot_decision_sign mode _ _ hsign
  have hdec := rot_decision_ne_zero mode (x, y, z)
  simp only at hdec
  unfold fitsLong specStep at hnext
  unfold cordicStage specStep
  simp only [hval]
  by_cases hd : specDecision mode (x, y, z) = true
  · rw [if_pos hd] at hnext
    obtain ⟨l1, l2, l3⟩ := hnext
    simp only at l1 l2 l3
    rw [if_pos (hdec.2 hd), if_pos hd]
    simp only [setReg, if_true, hx, hy, hz, shiftRight_eq_div]
    rw [wrapS64_of_isLong _ l1, wrapS64_of_isLong _ l2, wrapS64_of_isLong _ l3]
  · rw [if_neg hd] at hnext
    obtain ⟨l1, l2, l3⟩ := hnext
    simp only at l1 l2 l3
    rw [if_neg (fun h => hd (hdec.1 h)), if_neg hd]
    simp only [setReg, if_true, hx, hy, hz, shiftRight_eq_div]
    rw [wrapS64_of_isLong _ l1, wrapS64_of_isLong _ l2, wrapS64_of_isLong _ l3]

/-- After `n` stages, entry `n` of the register arrays holds the spec's stage-`n` triple,
provided the stage triples fit the 64-bit registers and the decision operands of the earlier
stages keep their sign under the narrowing. -/
theorem cordicLoop_spec_long (mode : cordic_mode_t) (r0 : CordicRegs) (t0 : Int × Int × Int)
    (h0 : (r0.x_vec 0, r0.y_vec 0, r0.z_vec 0) = t0) (n : Nat)
    (hlong : ∀ i, i ≤ n → fitsLong (specIter mode i t0))
    (hsign : ∀ i, i < n → signKept (stageOperand mode (specIter mode i t0))) :
    ((cordicLoop mode n r0).x_vec n, (cordicLoop mode n r0).y_vec n,
      (cordicLoop mode n r0).z_vec n) = specIter mode n t0 := by
  induction n with
  | zero => exact h0
  | succ n ih =>
    have ih2 := ih (fun i hi => hlong i (by omega)) (fun i hi => hsign i (by omega))
    exact cordicStage_spec_long mode n (cordicLoop mode n r0) (specIter mode n t0) ih2
      (hsign n (by omega)) (hlong (n + 1) (le_refl _))

/-- C1 (as amended): for every mode and every initial triple whose final exact triple
`(x_24, y_24, z_24)` consists of values of the 32-bit `int` of the result fields, whose exact
stage triples `(x_i, y_i, z_i)`, `0 ≤ i ≤ 24`, fit the 64-bit stage registers, and whose
decision operand (`z_i` in `ROTATION` mode, `y_i` in `VECTOR` mode, `i < 24`) keeps its sign
when narrowed to the `int` parameter of `rot_decision` (as every `int` value does), `cordic`
returns the triple reached after exactly 24 applications (`i = 0..23`) of the spec's step
(decision bit `z_i < 0` in `ROTATION` mode, `y_i ≥ 0` in `VECTOR` mode; floor shifts of the
stage-`i` values). -/
theorem cordic_eq_specIter (x0 y0 z0 : Int) (mode : cordic_mode_t)
    (hlong : ∀ i, i ≤ 24 → fitsLong (specIter mode i (x0, y0, z0)))
    (hsign : ∀ i, i < 24 → signKept (stageOperand mode (specIter mode i (x0, y0, z0))))
    (hfin : fitsInt (specIter mode 24 (x0, y0, z0))) :
    cordic x0 y0 z0 mode = toVector3 (specIter mode 24 (x0, y0, z0)) := by
  have h := cordicLoop_spec_long mode
    { x_vec := setReg (fun _ => 0) 0 x0
      y_vec := setReg (fun _ => 0) 0 y0
      z_vec := setReg (fun _ => 0) 0 z0 } (x0, y0, z0) (by simp [setReg]) 24 hlong hsign
  obtain ⟨f1, f2, f3⟩ := hfin
  unfold cordic toVector3
  simp only [ATANTABLESZ]
  rw [← h] at f1 f2 f3 ⊢
  simp only at f1 f2 f3 ⊢
  rw [wrapS32_of_isInt _ f1, wrapS32_of_isInt _ f2, wrapS32_of_isInt _ f3]

set_option maxRecDepth 100000 in
/-- Witness of C1 (as amended) at `(1500000000, 0, 4194304)` in `ROTATION` mode, where the
stage value `x_2 = 2250000000` is no `int` but fits the 64-bit register, and at
`(1, 0, 2147483547)` in `VECTOR` mode, where `z_1 .. z_3` are no `int`: in both the final
triple is an `int` triple and the engine returns it. -/
theorem cordic_eq_specIter_witness :
    ((∀ i, i ≤ 24 → fitsLong (specIter ROTATION i (1500000000, 0, 4194304))) ∧
      (∀ i, i < 24 →
        signKept (stageOperand ROTATION (specIter ROTATION i (1500000000, 0, 4194304)))) ∧
      fitsInt (specIter ROTATION 24 (1500000000, 0, 4194304)) ∧
      ¬ fitsInt (specIter ROTATION 2 (1500000000, 0, 4194304))) ∧
    cordic 1500000000 0 4194304 ROTATION =
      toVector3 (specIter ROTATION 24 (1500000000, 0, 4194304)) ∧
    specIter ROTATION 24 (1500000000, 0, 4194304) = (1746652759, 1746653278, 0) ∧
    cordic 1 0 2147483547 VECTOR = toVector3 (specIter VECTOR 24 (1, 0, 2147483547)) ∧
    specIter VECTOR 24 (1, 0, 2147483547) = (24, -1, 2146562387) :=
  ⟨by decide, cordic_eq_specIter 1500000000 0 4194304 ROTATION (by decide) (by decide)
    (by decide), by decide,
   cordic_eq_specIter 1 0 2147483547 VECTOR (by decide) (by decide) (by decide), by decide⟩

set_option maxRecDepth 100000 in
/-- Counterexample to C1 as stated: on `(2147483647, 0, 0)` in `VECTOR` mode (the call made by
`mag_cordic(2147483647, 0)`) the spec's 24 steps reach `x_24 = 3536390729`, which is no `int`;
the `x` field returned by `cordic` is the narrowed value `-758576567`. Every stage fits the
64-bit registers and every decision operand keeps its sign: only the final narrowing fails. -/
theorem cordic_narrowing_counterexample :
    specIter VECTOR 24 (2147483647, 0, 0) = (3536390729, 248, 0) ∧
    cordic 2147483647 0 0 VECTOR = { x := -758576567, y := 248, z := 0 } ∧
    cordic 2147483647 0 0 VECTOR ≠ toVector3 (specIter VECTOR 24 (2147483647, 0, 0)) ∧
    (∀ i, i ≤ 24 → fitsLong (specIter VECTOR i (2147483647, 0, 0))) ∧
    (∀ i, i < 24 → signKept (stageOperand VECTOR (specIter VECTOR i (2147483647, 0, 0)))) ∧
    ¬ fitsInt (specIter VECTOR 24 (2147483647, 0, 0)) := by
  decide


/-! ## The quadrant normalizer -/

/-- The bitwise `&` of two comparison results is non-zero exactly when both hold. -/
theorem andW_cmp (p q : Prop) [Decidable p] [Decidable q] :
    andW 32 (cmp p) (cmp q) ≠ 0 ↔ p ∧ q := by
  by_cases hp : p <;> by_cases hq : q <;> simp only [cmp, hp, hq, if_true, if_false] <;> decide

theorem specQuadrant_range (x y : Int) : 0 ≤ specQuadrant x y ∧ specQuadrant x y ≤ 3 := by
  unfold specQuadrant
  split_ifs <;> omega

theorem checkQuadrant_z (x y z : Int) : (checkQuadrant x y z).z = specQuadrant x y := by
  simp only [checkQuadrant, specQuadrant, andW_cmp]

/-- The fold of `checkQuadrant` by the sign tests of its second `if` chain. -/
theorem checkQuadrant_xy (x y z : Int) (hx : isShort x) (hy : isShort y) :
    ((checkQuadrant x y z).x, (checkQuadrant x y z).y) =
      if 0 ≤ x ∧ 0 ≤ y then (x, y)
      else if x < 0 ∧ 0 ≤ y then (y, wrapS 16 (-x))
      else if x < 0 ∧ y < 0 then (wrapS 16 (-x), wrapS 16 (-y))
      else (wrapS 16 (-y), x) := by
  unfold isShort at hx hy
  have ex : wrapS 32 (-x) = -x := wrapS32_of_isInt _ (by unfold isInt; omega)
  have ey : wrapS 32 (-y) = -y := wrapS32_of_isInt _ (by unfold isInt; omega)
  simp only [checkQuadrant, andW_cmp, ex, ey, ge_iff_le]

/-- C3: for 16-bit `x`, `y` and any `z` argument the `z` field of `checkQuadrant` is 0 if
`x > 0` and `y ≥ 0`, 1 if `x ≤ 0` and `y > 0`, 2 if `x < 0` and `y ≤ 0`, and 3 otherwise;
it lies in `0..3` and does not depend on the `z` argument. -/
theorem checkQuadrant_index (x y z : Int) (hx : isShort x) (hy : isShort y) :
    (checkQuadrant x y z).z =
      (if x > 0 ∧ y ≥ 0 then 0 else if x ≤ 0 ∧ y > 0 then 1 else if x < 0 ∧ y ≤ 0 then 2 else 3) ∧
    (0 ≤ (checkQuadrant x y z).z ∧ (checkQuadrant x y z).z ≤ 3) ∧
    ∀ z2 : Int, (checkQuadrant x y z2).z = (checkQuadrant x y z).z := by
  refine ⟨?_, ?_, fun z2 => ?_⟩
  · rw [checkQuadrant_z]; rfl
  · rw [checkQuadrant_z]; exact specQuadrant_range x y
  · rw [checkQuadrant_z, checkQuadrant_z]

/-- Witness of C3: `(-3, 4)` with `z = 7` is in quadrant 1. -/
theorem checkQuadrant_index_witness :
    (isShort (-3) ∧ isShort 4) ∧ (checkQuadrant (-3) 4 7).z = 1 ∧
    (0 ≤ (checkQuadrant (-3) 4 7).z ∧ (checkQuadrant (-3) 4 7).z ≤ 3) ∧
    ∀ z2 : Int, (checkQuadrant (-3) 4 z2).z = (checkQuadrant (-3) 4 7).z :=
  ⟨by decide, (checkQuadrant_index (-3) 4 7 (by decide) (by decide)).1.trans (by decide),
   (checkQuadrant_index (-3) 4 7 (by decide) (by decide)).2⟩

/-- C4 (as amended): for `x`, `y` in `-32767..32767` other than the half-axes `x = 0, y > 0`
and `x < 0, y = 0` (so in particular whenever `x ≠ 0` and `y ≠ 0`, the only inputs the
arctangent entry points pass on), the folded vector returned by `checkQuadrant` is the
rotation selected by the returned quadrant index `q`: `(x, y)` for 0, `(y, -x)` for 1,
`(-x, -y)` for 2, `(-y, x)` for 3. -/
theorem checkQuadrant_fold (x y : Int) (hx : -32767 ≤ x ∧ x ≤ 32767)
    (hy : -32767 ≤ y ∧ y ≤ 32767) (h1 : ¬ (x = 0 ∧ 0 < y)) (h2 : ¬ (x < 0 ∧ y = 0)) :
    ((checkQuadrant x y 0).x, (checkQuadrant x y 0).y) = specFold (checkQuadrant x y 0).z x y := by
  have ex : wrapS 16 (-x) = -x := wrapS16_of_isShort _ (by unfold isShort; omega)
  have ey : wrapS 16 (-y) = -y := wrapS16_of_isShort _ (by unfold isShort; omega)
  rw [checkQuadrant_xy x y 0 (by unfold isShort; omega) (by unfold isShort; omega),
    checkQuadrant_z, ex, ey]
  unfold specQuadrant specFold
  by_cases a : 0 ≤ x ∧ 0 ≤ y
  · rw [if_pos a]
    by_cases b : x > 0 ∧ y ≥ 0
    · simp [b]
    · have hx0 : x = 0 := by omega
      have hy0 : y = 0 := by omega
      subst hx0 hy0
      simp
  · rw [if_neg a]
    by_cases b : x < 0 ∧ 0 ≤ y
    · rw [if_pos b, if_neg (by omega), if_pos (by omega)]
    · rw [if_neg b]
      by_cases c : x < 0 ∧ y < 0
      · rw [if_pos c, if_neg (by omega), if_neg (by omega), if_pos (by omega)]
      · rw [if_neg c, if_neg (by omega), if_neg (by omega), if_neg (by omega)]

/-- Witness of C4 (as amended) at `(-3, 4)`: quadrant 1, folded to `(4, 3)`. -/
theorem checkQuadrant_fold_witness :
    ((-32767 : Int) ≤ -3 ∧ (-3 : Int) ≤ 32767) ∧ ((-32767 : Int) ≤ 4 ∧ (4 : Int) ≤ 32767) ∧
    ¬ ((-3 : Int) = 0 ∧ (0 : Int) < 4) ∧ ¬ ((-3 : Int) < 0 ∧ (4 : Int) = 0) ∧
    ((checkQuadrant (-3) 4 0).x, (checkQuadrant (-3) 4 0).y) = (4, 3) :=
  ⟨by decide, by decide, by decide, by decide,
   (checkQuadrant_fold (-3) 4 (by decide) (by decide) (by decide) (by decide)).trans (by decide)⟩

/-- Counterexample to C4 as stated: `checkQuadrant(0, 5, 0)` returns quadrant 1 with the
vector left at `(0, 5)`, not the quadrant-1 rotation `(5, 0)`; `checkQuadrant(-5, 0, 0)`
returns quadrant 2 with `(0, 5)`, not `(5, 0)`; and at `x = -32768` the negated component
is narrowed back to `-32768`. -/
theorem checkQuadrant_fold_counterexample :
    (checkQuadrant 0 5 0 = { x := 0, y := 5, z := 1 } ∧ specFold 1 0 5 = (5, 0)) ∧
    (checkQuadrant (-5) 0 0 = { x := 0, y := 5, z := 2 } ∧ specFold 2 (-5) 0 = (5, 0)) ∧
    (checkQuadrant (-32768) 5 0 = { x := 5, y := -32768, z := 1 } ∧
      specFold 1 (-32768) 5 = (5, 32768)) ∧
    ¬ (((checkQuadrant 0 5 0).x, (checkQuadrant 0 5 0).y) = specFold (checkQuadrant 0 5 0).z 0 5) := by
  decide

/-- The fold lands in the first quadrant when neither component is `-32768`. -/
theorem checkQuadrant_first_quadrant (x y z : Int) (hx : -32767 ≤ x ∧ x ≤ 32767)
    (hy : -32767 ≤ y ∧ y ≤ 32767) : 0 ≤ (checkQuadrant x y z).x ∧ 0 ≤ (checkQuadrant x y z).y := by
  have ex : wrapS 16 (-x) = -x := wrapS16_of_isShort _ (by unfold isShort; omega)
  have ey : wrapS 16 (-y) = -y := wrapS16_of_isShort _ (by unfold isShort; omega)
  have h := checkQuadrant_xy x y z (by unfold isShort; omega) (by unfold isShort; omega)
  rw [ex, ey] at h
  split_ifs at h <;> simp only [Prod.mk.injEq] at h <;> omega

set_option maxRecDepth 100000 in
/-- C5, the code at the failing inputs: with `x = -32768` (or `y = -32768`) the negation
is narrowed back to `-32768` when stored in the `short`, so the folded vector has a
negative component and leaves the first quadrant; `arctan_cordic(-32768, 20000)` then
reports `22100` where the neighbouring `arctan_cordic(-32767, 20000)` reports `27052`. -/
theorem checkQuadrant_min_short_leaves_first_quadrant :
    checkQuadrant (-32768) 1 0 = { x := 1, y := -32768, z := 1 } ∧
    checkQuadrant 1 (-32768) 0 = { x := -32768, y := 1, z := 3 } ∧
    (checkQuadrant (-32768) 1 0).y < 0 ∧ (checkQuadrant 1 (-32768) 0).x < 0 ∧
    arctan_cordic (-32768) 20000 = 22100 ∧ arctan_cordic (-32767) 20000 = 27052 := by
  decide


/-! ## The 16-bit arctangent -/

theorem isInt_wrapS32 (v : Int) : isInt (wrapS 32 v) := by
  unfold wrapS isInt
  norm_num
  omega

theorem wrapS32_wrapU32 (v : Int) (h : isInt v) : wrapS 32 (wrapU 32 v) = v := by
  unfold isInt at h
  unfold wrapS wrapU
  norm_num
  omega

theorem cordic_fields_isInt (x y z : Int) (mode : cordic_mode_t) :
    isInt (cordic x y z mode).x ∧ isInt (cordic x y z mode).y ∧ isInt (cordic x y z mode).z :=
  ⟨isInt_wrapS32 _, isInt_wrapS32 _, isInt_wrapS32 _⟩

theorem andW32_low14 (v : Int) : andW 32 v 0x3fff = v % 16384 := by
  have := andW_mask 32 14 (by decide) v
  simpa using this

/-- Masking the `unsigned short` copy of a value keeps the same low 14 bits. -/
theorem andW32_low14_wrapU16 (v : Int) : andW 32 (wrapU 16 v) 0x3fff = andW 32 v 0x3fff := by
  rw [andW32_low14, andW32_low14]
  unfold wrapU
  have e : ((2 ^ 16 : Nat) : Int) = 65536 := by norm_num
  rw [e]
  exact Int.emod_emod_of_dvd v (by norm_num : (16384 : Int) ∣ 65536)

/-- A quadrant index shifted to bits 14 and 15, or-ed with a 14-bit value, is their sum. -/
theorem orW32_quadrant (q b : Int) (hq : 0 ≤ q ∧ q ≤ 3) (hb : 0 ≤ b ∧ b < 16384) :
    orW 32 (q * 16384) b = q * 16384 + b := by
  obtain ⟨qn, rfl⟩ := Int.eq_ofNat_of_zero_le hq.1
  obtain ⟨bn, rfl⟩ := Int.eq_ofNat_of_zero_le hb.1
  have hqn : qn ≤ 3 := by omega
  have hbn : bn < 2 ^ 14 := by norm_num; omega
  unfold orW
  have e1 : ((qn : Int) * 16384) = ((2 ^ 14 * qn : Nat) : Int) := by push_cast; ring
  rw [e1, bitsOf_natCast 32 _ (by norm_num; omega), bitsOf_natCast 32 _ (by norm_num; omega),
    ← Nat.mul_add_lt_is_or hbn qn]
  apply wrapS32_of_isInt
  unfold isInt
  push_cast
  omega

/-- The composition of the 16-bit arctangent off the axes, with the mask and the `|` resolved:
the quadrant index times `2^14` plus the rounded within-quadrant angle modulo `2^14`. -/
theorem arctan_cordic_offaxis_sum (x y : Int) (hx0 : x ≠ 0) (hy0 : y ≠ 0) :
    arctan_cordic x y = (checkQuadrant x y 0).z * 16384 +
      round_i (cordic (checkQuadrant x y 0).x (checkQuadrant x y 0).y 0 VECTOR).z 9 % 16384 := by
  have hq := specQuadrant_range x y
  rw [← checkQuadrant_z x y 0] at hq
  have hz := (cordic_fields_isInt (checkQuadrant x y 0).x (checkQuadrant x y 0).y 0 VECTOR).2.2
  unfold arctan_cordic
  simp only [if_neg hx0, if_neg hy0]
  rw [wrapS32_wrapU32 _ hz, andW32_low14_wrapU16, andW32_low14]
  have e8 : wrapS 8 (checkQuadrant x y 0).z = (checkQuadrant x y 0).z := by
    apply wrapS_of_range 8 (by decide) <;> norm_num <;> omega
  have es : wrapS 32 (shl (checkQuadrant x y 0).z 14) = (checkQuadrant x y 0).z * 16384 := by
    unfold shl
    norm_num
    apply wrapS32_of_isInt
    unfold isInt
    omega
  rw [e8, es]
  have hm0 := Int.emod_nonneg
    (round_i (cordic (checkQuadrant x y 0).x (checkQuadrant x y 0).y 0 VECTOR).z 9)
    (by norm_num : (16384 : Int) ≠ 0)
  have hm1 := Int.emod_lt_of_pos
    (round_i (cordic (checkQuadrant x y 0).x (checkQuadrant x y 0).y 0 VECTOR).z 9)
    (by norm_num : (0 : Int) < 16384)
  rw [orW32_quadrant _ _ hq ⟨hm0, hm1⟩]
  unfold wrapU
  norm_num
  omega

/-- C6: for 16-bit `x`, `y` with `x ≠ 0` and `y ≠ 0`,
`arctan_cordic(x, y) = (q << 14) | (round_i(z, 9) & 0x3FFF)` where `(x', y', q)` is
`checkQuadrant(x, y, 0)` and `z` the `z` field of `cordic(x', y', 0, VECTOR)`; the result is
an unsigned 16-bit value. -/
theorem arctan_cordic_offaxis (x y : Int) (hx : isShort x) (hy : isShort y)
    (hx0 : x ≠ 0) (hy0 : y ≠ 0) :
    arctan_cordic x y =
      orW 32 (shl (checkQuadrant x y 0).z 14)
        (andW 32 (round_i (cordic (checkQuadrant x y 0).x (checkQuadrant x y 0).y 0 VECTOR).z 9)
          0x3FFF) ∧
    0 ≤ arctan_cordic x y ∧ arctan_cordic x y ≤ 65535 := by
  have hq := specQuadrant_range x y
  rw [← checkQuadrant_z x y 0] at hq
  have hm0 := Int.emod_nonneg
    (round_i (cordic (checkQuadrant x y 0).x (checkQuadrant x y 0).y 0 VECTOR).z 9)
    (by norm_num : (16384 : Int) ≠ 0)
  have hm1 := Int.emod_lt_of_pos
    (round_i (cordic (checkQuadrant x y 0).x (checkQuadrant x y 0).y 0 VECTOR).z 9)
    (by norm_num : (0 : Int) < 16384)
  have hs := arctan_cordic_offaxis_sum x y hx0 hy0
  refine ⟨?_, by omega, by omega⟩
  rw [hs, andW32_low14]
  have es : shl (checkQuadrant x y 0).z 14 = (checkQuadrant x y 0).z * 16384 := by
    unfold shl; norm_num
  rw [es, orW32_quadrant _ _ hq ⟨hm0, hm1⟩]

set_option maxRecDepth 100000 in
/-- Witness of C6 at `(-3, 4)`: quadrant 1, and the composed angle is `22289`. -/
theorem arctan_cordic_offaxis_witness :
    (isShort (-3) ∧ isShort 4 ∧ (-3 : Int) ≠ 0 ∧ (4 : Int) ≠ 0) ∧
    arctan_cordic (-3) 4 =
      orW 32 (shl (checkQuadrant (-3) 4 0).z 14)
        (andW 32
          (round_i (cordic (checkQuadrant (-3) 4 0).x (checkQuadrant (-3) 4 0).y 0 VECTOR).z 9)
          0x3FFF) ∧
    0 ≤ arctan_cordic (-3) 4 ∧ arctan_cordic (-3) 4 ≤ 65535 :=
  ⟨by decide, arctan_cordic_offaxis (-3) 4 (by decide) (by decide) (by decide) (by decide)⟩

/-- The axis branches of `arctan_cordic`. -/
theorem arctan_cordic_axis_values (v : Int) :
    (0 < v → arctan_cordic 0 v = 16384 ∧ arctan_cordic v 0 = 0) ∧
    (v < 0 → arctan_cordic 0 v = 49152 ∧ arctan_cordic v 0 = 32768) := by
  constructor
  · intro h
    have h1 : v ≠ 0 := by omega
    have h2 : v ≥ 0 := by omega
    simp [arctan_cordic, h1, h2]
  · intro h
    have h1 : v ≠ 0 := by omega
    have h2 : ¬ v ≥ 0 := by omega
    simp only [arctan_cordic, if_true, if_neg h1, if_neg h2, and_self]

/-- C7: axis exactness of the 16-bit arctangent. For a 16-bit `v`: `arctan_cordic(0, v)` is
`16384` when `v > 0` and `49152` when `v < 0`; `arctan_cordic(v, 0)` is `0` when `v > 0` and
`32768` when `v < 0`. -/
theorem arctan_cordic_axes (v : Int) (hv : isShort v) :
    (0 < v → arctan_cordic 0 v = 16384 ∧ arctan_cordic v 0 = 0) ∧
    (v < 0 → arctan_cordic 0 v = 49152 ∧ arctan_cordic v 0 = 32768) :=
  arctan_cordic_axis_values v

/-- Witness of C7 at `v = 7` and `v = -7`. -/
theorem arctan_cordic_axes_witness :
    (isShort 7 ∧ isShort (-7) ∧ (0 : Int) < 7 ∧ (-7 : Int) < 0) ∧
    (arctan_cordic 0 7 = 16384 ∧ arctan_cordic 7 0 = 0) ∧
    (arctan_cordic 0 (-7) = 49152 ∧ arctan_cordic (-7) 0 = 32768) :=
  ⟨by decide, (arctan_cordic_axes 7 (by decide)).1 (by decide),
   (arctan_cordic_axes (-7) (by decide)).2 (by decide)⟩

/-- C8: quadrant round-trip. For every 16-bit `(x, y)` other than `(0, 0)`, with `q` the
quadrant index that `checkQuadrant` assigns to `(x, y)` (0 if `x > 0, y ≥ 0`; 1 if
`x ≤ 0, y > 0`; 2 if `x < 0, y ≤ 0`; 3 otherwise), `arctan_cordic(x, y)` lies in
`[q * 16384, (q + 1) * 16384)`. -/
theorem arctan_cordic_quadrant (x y : Int) (hx : isShort x) (hy : isShort y)
    (hne : ¬ (x = 0 ∧ y = 0)) :
    (checkQuadrant x y 0).z = specQuadrant x y ∧
    (checkQuadrant x y 0).z * 16384 ≤ arctan_cordic x y ∧
    arctan_cordic x y < ((checkQuadrant x y 0).z + 1) * 16384 := by
  refine ⟨checkQuadrant_z x y 0, ?_⟩
  by_cases hx0 : x = 0
  · have hy0 : y ≠ 0 := fun h => hne ⟨hx0, h⟩
    subst hx0
    rw [checkQuadrant_z]
    by_cases hp : y ≥ 0
    · have : specQuadrant 0 y = 1 := by
        unfold specQuadrant; rw [if_neg (by omega), if_pos (by omega)]
      simp [arctan_cordic, hp, this]
    · have : specQuadrant 0 y = 3 := by
        unfold specQuadrant; rw [if_neg (by omega), if_neg (by omega), if_neg (by omega)]
      simp [arctan_cordic, hp, this]
  · by_cases hy0 : y = 0
    · subst hy0
      rw [checkQuadrant_z]
      by_cases hp : x ≥ 0
      · have : specQuadrant x 0 = 0 := by
          unfold specQuadrant; rw [if_pos (by omega)]
        simp [arctan_cordic, hp, this, hx0]
      · have : specQuadrant x 0 = 2 := by
          unfold specQuadrant; rw [if_neg (by omega), if_neg (by omega), if_pos (by omega)]
        simp [arctan_cordic, hp, this, hx0]
    · have hs := arctan_cordic_offaxis_sum x y hx0 hy0
      have hm0 := Int.emod_nonneg
        (round_i (cordic (checkQuadrant x y 0).x (checkQuadrant x y 0).y 0 VECTOR).z 9)
        (by norm_num : (16384 : Int) ≠ 0)
      have hm1 := Int.emod_lt_of_pos
        (round_i (cordic (checkQuadrant x y 0).x (checkQuadrant x y 0).y 0 VECTOR).z 9)
        (by norm_num : (0 : Int) < 16384)
      omega

set_option maxRecDepth 100000 in
/-- Witness of C8 at `(-3, -4)`: quadrant 2 and `32768 ≤ arctan_cordic(-3, -4) < 49152`. -/
theorem arctan_cordic_quadrant_witness :
    (isShort (-3) ∧ isShort (-4) ∧ ¬ ((-3 : Int) = 0 ∧ (-4 : Int) = 0)) ∧
    (checkQuadrant (-3) (-4) 0).z = 2 ∧
    (32768 ≤ arctan_cordic (-3) (-4) ∧ arctan_cordic (-3) (-4) < 49152) := by
  have h := arctan_cordic_quadrant (-3) (-4) (by decide) (by decide) (by decide)
  have hq : (checkQuadrant (-3) (-4) 0).z = 2 := by decide
  rw [hq] at h
  exact ⟨by decide, hq, by omega, by omega⟩

set_option maxRecDepth 100000 in
/-- C9, the code at the failing input: `arctan_cordic(1, 1)` is `7873` (about 43.2 degrees),
outside `8190..8194`. The pre-scaled copies `xi = x << SHIFT`, `yi = y << SHIFT` are computed
and never used, so the engine runs on the unscaled `(1, 1)` and `y` sticks at `-1` from
stage 2 on; at a larger magnitude the same direction gives `arctan_cordic(10000, 10000) = 8192`. -/
theorem arctan_cordic_one_one :
    arctan_cordic 1 1 = 7873 ∧ ¬ (8190 ≤ arctan_cordic 1 1 ∧ arctan_cordic 1 1 ≤ 8194) ∧
    cordic 1 1 0 VECTOR = { x := 24, y := -1, z := 4030924 } ∧
    arctan_cordic 10000 10000 = 8192 := by
  decide


/-! ## The magnitude entry points -/

/-- The sign reflection of the magnitude entry points is the 32-bit absolute value. -/
theorem reflect_eq_abs32 (v : Int) (h : isInt v) :
    (if v < 0 then wrapS 32 (-v) else v) = abs32 v := by
  unfold abs32
  split
  · rw [abs_of_neg (by assumption)]
  · rw [abs_of_nonneg (by omega), wrapS32_of_isInt v h]

theorem abs32_eq_abs (v : Int) (h : isInt v) (hmin : v ≠ -2147483648) : abs32 v = |v| := by
  unfold isInt at h
  unfold abs32
  apply wrapS32_of_isInt
  unfold isInt
  rcases abs_cases v with ⟨e, _⟩ | ⟨e, _⟩ <;> rw [e] <;> omega

theorem wrapU32_range (v : Int) : 0 ≤ wrapU 32 v ∧ wrapU 32 v ≤ 4294967295 := by
  unfold wrapU
  norm_num
  omega

/-- The gain product of an unsigned 32-bit value does not wrap in `unsigned long`. -/
theorem gain_product_exact (m : Int) (h : 0 ≤ m ∧ m ≤ 4294967295) :
    wrapU 64 (wrapU 64 m * wrapU 64 CORDIC_GAIN) = m * 0x9B75 := by
  unfold wrapU CORDIC_GAIN
  norm_num
  rw [Int.emod_eq_of_lt (a := m) (by omega) (by omega), Int.emod_eq_of_lt (by omega) (by omega)]

theorem mag_cordic_l_eq (x y : Int) (hx : isInt x) (hy : isInt y) :
    mag_cordic_l x y = wrapU 32 (cordic (abs32 x) (abs32 y) 0 VECTOR).x * 0x9B75 := by
  unfold mag_cordic_l
  simp only [reflect_eq_abs32 x hx, reflect_eq_abs32 y hy]
  exact gain_product_exact _ (wrapU32_range _)

/-- C10 (as amended): for every 32-bit `x`, `y` other than `-2^31` (whose negation is no
`int`), `mag_cordic_l(x, y) = X * 0x9B75` where `X` is the `x` field of
`cordic(|x|, |y|, 0, VECTOR)` read as an unsigned 32-bit value; and for every 32-bit `x`, `y`,
`mag_cordic(x, y)` is the product `mag_cordic_l(x, y)` round-half-up-shifted by 16 bits:
`round_l(mag_cordic_l(x, y), 16)` narrowed to unsigned 32 bits, with
`round_l(p, 16) = floor((p + 2^15) / 2^16)`. -/
theorem mag_cordic_refines (x y : Int) (hx : isInt x) (hy : isInt y) :
    (x ≠ -2147483648 → y ≠ -2147483648 →
      mag_cordic_l x y = wrapU 32 (cordic |x| |y| 0 VECTOR).x * 0x9B75) ∧
    mag_cordic x y = wrapU 32 (round_l (mag_cordic_l x y) 16) ∧
    round_l (mag_cordic_l x y) 16 = roundHalfUp (mag_cordic_l x y) 16 := by
  have hl := mag_cordic_l_eq x y hx hy
  have hr := wrapU32_range (cordic (abs32 x) (abs32 y) 0 VECTOR).x
  have hlong : isLong (mag_cordic_l x y) := by
    rw [hl]; unfold isLong; omega
  refine ⟨fun hxm hym => ?_, ?_, ?_⟩
  · rw [hl, abs32_eq_abs x hx hxm, abs32_eq_abs y hy hym]
  · have e : mag_cordic x y = wrapU 32 (round_l (wrapS 64 (mag_cordic_l x y)) 16) := rfl
    rw [e, wrapS64_of_isLong _ hlong]
  · rw [round_l_eq _ 16 (by decide) hlong, roundHalfUp_testBit _ 16 (by decide)]

set_option maxRecDepth 100000 in
/-- Witness of C10 (as amended) at `(-3, 4)`: the engine runs on `(3, 4)`, its `x` field is
`9`, the wide product is `9 * 39797 = 358173` and the rounded magnitude is `5`. -/
theorem mag_cordic_refines_witness :
    (isInt (-3) ∧ isInt 4 ∧ (-3 : Int) ≠ -2147483648 ∧ (4 : Int) ≠ -2147483648) ∧
    mag_cordic_l (-3) 4 = wrapU 32 (cordic |(-3 : Int)| |(4 : Int)| 0 VECTOR).x * 0x9B75 ∧
    mag_cordic_l (-3) 4 = 358173 ∧ mag_cordic (-3) 4 = 5 ∧
    mag_cordic (-3) 4 = wrapU 32 (round_l (mag_cordic_l (-3) 4) 16) :=
  ⟨by decide,
   (mag_cordic_refines (-3) 4 (by decide) (by decide)).1 (by decide) (by decide), by decide,
   by decide, (mag_cordic_refines (-3) 4 (by decide) (by decide)).2.1⟩

set_option maxRecDepth 100000 in
/-- Counterexample to C10 as stated: at `x = -2^31` the reflection `x = -x` leaves `-2^31`, so
the engine runs on `(-2^31, 0)` and `mag_cordic_l(-2^31, 0) = 59109471544929`, while the
claim's right side, from `cordic(|x|, |y|, 0, VECTOR) = cordic(2^31, 0, 0, VECTOR)`, is
`140737741921607`; likewise at `y = -2^31`. -/
theorem mag_cordic_abs_counterexample :
    (mag_cordic_l (-2147483648) 0 = 59109471544929 ∧
      wrapU 32 (cordic |(-2147483648 : Int)| |(0 : Int)| 0 VECTOR).x * 0x9B75 =
        140737741921607) ∧
    (mag_cordic_l 0 (-2147483648) = 140737741921607 ∧
      wrapU 32 (cordic |(0 : Int)| |(-2147483648 : Int)| 0 VECTOR).x * 0x9B75 =
        59109471544929) ∧
    isInt (-2147483648) ∧
    mag_cordic_l (-2147483648) 0 ≠
      wrapU 32 (cordic |(-2147483648 : Int)| |(0 : Int)| 0 VECTOR).x * 0x9B75 := by
  decide


/-! ## Magnitude: symmetry and scenarios -/

theorem isInt_neg_wrap (v : Int) : isInt (wrapS 32 (-v)) := isInt_wrapS32 _

/-- The 32-bit absolute value is unchanged by the 32-bit (wrapping) negation. -/
theorem abs32_neg (v : Int) (h : isInt v) : abs32 (wrapS 32 (-v)) = abs32 v := by
  unfold isInt at h
  by_cases hmin : v = -2147483648
  · subst hmin
    have : wrapS 32 (- -2147483648) = -2147483648 := by decide
    rw [this]
  · rw [wrapS32_of_isInt (-v) (by unfold isInt; omega)]
    unfold abs32
    rw [abs_neg]

theorem mag_cordic_congr (a b c d : Int) (ha : isInt a) (hb : isInt b) (hc : isInt c)
    (hd : isInt d) (h1 : abs32 a = abs32 c) (h2 : abs32 b = abs32 d) :
    mag_cordic a b = mag_cordic c d := by
  unfold mag_cordic
  simp only [reflect_eq_abs32 a ha, reflect_eq_abs32 b hb, reflect_eq_abs32 c hc,
    reflect_eq_abs32 d hd, h1, h2]

theorem mag_cordic_l_congr (a b c d : Int) (ha : isInt a) (hb : isInt b) (hc : isInt c)
    (hd : isInt d) (h1 : abs32 a = abs32 c) (h2 : abs32 b = abs32 d) :
    mag_cordic_l a b = mag_cordic_l c d := by
  unfold mag_cordic_l
  simp only [reflect_eq_abs32 a ha, reflect_eq_abs32 b hb, reflect_eq_abs32 c hc,
    reflect_eq_abs32 d hd, h1, h2]

/-- C11: magnitude sign symmetry. For every 32-bit `x`, `y`, with the negation taken in 32-bit
wrapping arithmetic, `mag_cordic(x, y) = mag_cordic(-x, y) = mag_cordic(x, -y) =
mag_cordic(-x, -y)`, and likewise for `mag_cordic_l`. -/
theorem mag_cordic_sign_symmetry (x y : Int) (hx : isInt x) (hy : isInt y) :
    (mag_cordic x y = mag_cordic (wrapS 32 (-x)) y ∧
      mag_cordic x y = mag_cordic x (wrapS 32 (-y)) ∧
      mag_cordic x y = mag_cordic (wrapS 32 (-x)) (wrapS 32 (-y))) ∧
    (mag_cordic_l x y = mag_cordic_l (wrapS 32 (-x)) y ∧
      mag_cordic_l x y = mag_cordic_l x (wrapS 32 (-y)) ∧
      mag_cordic_l x y = mag_cordic_l (wrapS 32 (-x)) (wrapS 32 (-y))) := by
  have nx := isInt_neg_wrap x
  have ny := isInt_neg_wrap y
  have ax := (abs32_neg x hx).symm
  have ay := (abs32_neg y hy).symm
  exact ⟨⟨mag_cordic_congr _ _ _ _ hx hy nx hy ax rfl,
      mag_cordic_congr _ _ _ _ hx hy hx ny rfl ay,
      mag_cordic_congr _ _ _ _ hx hy nx ny ax ay⟩,
    ⟨mag_cordic_l_congr _ _ _ _ hx hy nx hy ax rfl,
      mag_cordic_l_congr _ _ _ _ hx hy hx ny rfl ay,
      mag_cordic_l_congr _ _ _ _ hx hy nx ny ax ay⟩⟩

set_option maxRecDepth 100000 in
/-- Witness of C11 at `(3, -4)`: all four sign patterns give magnitude `5` and wide product
`358173`. -/
theorem mag_cordic_sign_symmetry_witness :
    (isInt 3 ∧ isInt (-4)) ∧ wrapS 32 (-3) = -3 ∧ wrapS 32 (- -4) = 4 ∧
    (mag_cordic 3 (-4) = mag_cordic (-3) (-4) ∧ mag_cordic 3 (-4) = mag_cordic 3 4 ∧
      mag_cordic 3 (-4) = mag_cordic (-3) 4) ∧ mag_cordic 3 (-4) = 5 ∧
    mag_cordic_l 3 (-4) = mag_cordic_l (-3) 4 :=
  ⟨by decide, by decide, by decide,
   (mag_cordic_sign_symmetry 3 (-4) (by decide) (by decide)).1, by decide,
   (mag_cordic_sign_symmetry 3 (-4) (by decide) (by decide)).2.2.2⟩

set_option maxRecDepth 100000 in
/-- C12, the code at failing inputs: `mag_cordic(1, 0) = 15` where the Euclidean norm is `1`,
and `mag_cordic(32767, 32767) = 46346` where the norm is about `46339.5`; in both cases
`(m - 1)^2 > x^2 + y^2` with `m ≥ 1`. The engine runs on the unscaled integers, and the floor
shifts of a negative `y` stay at `-1`: `cordic(1, 0, 0, VECTOR)` ends with `x = 24`. -/
theorem mag_cordic_accuracy_fails :
    mag_cordic 1 0 = 15 ∧ cordic 1 0 0 VECTOR = { x := 24, y := -1, z := -921160 } ∧
    ¬ ((1 : Int) ≤ mag_cordic 1 0 → (mag_cordic 1 0 - 1) ^ 2 ≤ (1 : Int) ^ 2 + 0 ^ 2) ∧
    mag_cordic 32767 32767 = 46346 ∧
    ¬ ((1 : Int) ≤ mag_cordic 32767 32767 →
      (mag_cordic 32767 32767 - 1) ^ 2 ≤ (32767 : Int) ^ 2 + 32767 ^ 2) ∧
    mag_cordic 100 100 = 143 := by
  decide

set_option maxRecDepth 100000 in
/-- C13: concrete scenario, `mag_cordic(3, 4)` is `5`, within tolerance 1 of the norm `5`:
`4 ≤ mag_cordic(3, 4) ≤ 6`. -/
theorem mag_cordic_three_four :
    mag_cordic 3 4 = 5 ∧ 4 ≤ mag_cordic 3 4 ∧ mag_cordic 3 4 ≤ 6 := by
  decide


/-! ## The 24-bit arctangent -/

/-- Masking an unsigned operand with `2^k - 1` is the value modulo `2^k`. -/
theorem andU_mask (w k : Nat) (hk : k ≤ w) (v : Int) :
    andU w v (((2 ^ k - 1 : Nat) : Int)) = v % ((2 ^ k : Nat) : Int) := by
  unfold andU
  have hkw : 2 ^ k ≤ 2 ^ w := Nat.pow_le_pow_right (by decide) hk
  have hpos : 0 < 2 ^ k := Nat.two_pow_pos _
  rw [bitsOf_natCast w (2 ^ k - 1) (by omega), Nat.and_pow_two_sub_one_eq_mod,
    Int.natCast_mod, bitsOf_cast, Int.emod_emod_of_dvd]
  exact Int.natCast_dvd_natCast.mpr (pow_dvd_pow 2 hk)

theorem andU32_low24 (v : Int) : andU 32 v 0xffffff = v % 16777216 := by
  have := andU_mask 32 24 (by decide) v
  simpa using this

theorem andW32_low24 (v : Int) : andW 32 v 0xFFFFFF = v % 16777216 := by
  have := andW_mask 32 24 (by decide) v
  simpa using this

/-- The composition of the 24-bit arctangent off the axes with the mask resolved. -/
theorem arctan_cordic_24b_offaxis_mod (x y : Int) (hx0 : x ≠ 0) (hy0 : y ≠ 0) :
    arctan_cordic_24b x y = ((checkQuadrant x y 0).z * 4194304 +
      round_i (cordic (checkQuadrant x y 0).x (checkQuadrant x y 0).y 0 VECTOR).z 1) %
        16777216 := by
  have hq := specQuadrant_range x y
  rw [← checkQuadrant_z x y 0] at hq
  have hz := (cordic_fields_isInt (checkQuadrant x y 0).x (checkQuadrant x y 0).y 0 VECTOR).2.2
  unfold arctan_cordic_24b
  simp only [if_neg hx0, if_neg hy0]
  rw [wrapS32_wrapU32 _ hz, andU32_low24]
  have e8 : wrapS 8 (checkQuadrant x y 0).z = (checkQuadrant x y 0).z := by
    apply wrapS_of_range 8 (by decide) <;> norm_num <;> omega
  have es : wrapS 32 (shl (checkQuadrant x y 0).z 22) = (checkQuadrant x y 0).z * 4194304 := by
    unfold shl
    norm_num
    apply wrapS32_of_isInt
    unfold isInt
    omega
  rw [e8, es]
  unfold wrapU
  have e32 : ((2 ^ 32 : Nat) : Int) = 4294967296 := by norm_num
  rw [e32]
  omega

/-- C14: for 16-bit `x`, `y` with `x ≠ 0` and `y ≠ 0`,
`arctan_cordic_24b(x, y) = ((q << 22) + round_i(z, 1)) & 0xFFFFFF` where `(x', y', q)` is
`checkQuadrant(x, y, 0)` and `z` the `z` field of `cordic(x', y', 0, VECTOR)`; and for every
16-bit `x`, `y` the result of `arctan_cordic_24b` lies in `[0, 2^24)`. -/
theorem arctan_cordic_24b_offaxis (x y : Int) (hx : isShort x) (hy : isShort y) :
    (x ≠ 0 → y ≠ 0 →
      arctan_cordic_24b x y =
        andW 32 (shl (checkQuadrant x y 0).z 22 +
          round_i (cordic (checkQuadrant x y 0).x (checkQuadrant x y 0).y 0 VECTOR).z 1)
          0xFFFFFF) ∧
    0 ≤ arctan_cordic_24b x y ∧ arctan_cordic_24b x y < 2 ^ 24 := by
  constructor
  · intro hx0 hy0
    rw [arctan_cordic_24b_offaxis_mod x y hx0 hy0, andW32_low24]
    have es : shl (checkQuadrant x y 0).z 22 = (checkQuadrant x y 0).z * 4194304 := by
      unfold shl; norm_num
    rw [es]
  · by_cases hx0 : x = 0
    · subst hx0
      by_cases hp : y ≥ 0 <;> simp [arctan_cordic_24b, hp]
    · by_cases hy0 : y = 0
      · subst hy0
        by_cases hp : x ≥ 0 <;> simp [arctan_cordic_24b, hp, hx0]
      · rw [arctan_cordic_24b_offaxis_mod x y hx0 hy0]
        constructor
        · exact Int.emod_nonneg _ (by norm_num)
        · exact Int.emod_lt_of_pos _ (by norm_num)

set_option maxRecDepth 100000 in
/-- Witness of C14 at `(-3, 4)`. -/
theorem arctan_cordic_24b_offaxis_witness :
    (isShort (-3) ∧ isShort 4 ∧ (-3 : Int) ≠ 0 ∧ (4 : Int) ≠ 0) ∧
    arctan_cordic_24b (-3) 4 =
      andW 32 (shl (checkQuadrant (-3) 4 0).z 22 +
        round_i (cordic (checkQuadrant (-3) 4 0).x (checkQuadrant (-3) 4 0).y 0 VECTOR).z 1)
        0xFFFFFF ∧
    0 ≤ arctan_cordic_24b (-3) 4 ∧ arctan_cordic_24b (-3) 4 < 2 ^ 24 :=
  ⟨by decide,
   (arctan_cordic_24b_offaxis (-3) 4 (by decide) (by decide)).1 (by decide) (by decide),
   (arctan_cordic_24b_offaxis (-3) 4 (by decide) (by decide)).2⟩

/-- C15: axis cases of the 24-bit arctangent. For a 16-bit `v`: `arctan_cordic_24b(0, v)` is
`0x400000` when `v > 0` and `0xC00000` when `v < 0`; `arctan_cordic_24b(v, 0)` is `0` when
`v > 0` and `0x800000` when `v < 0`; so on every axis-aligned input other than the origin
`arctan_cordic_24b = 256 * arctan_cordic`. -/
theorem arctan_cordic_24b_axes (v : Int) (hv : isShort v) :
    (0 < v → arctan_cordic_24b 0 v = 0x400000 ∧ arctan_cordic_24b v 0 = 0) ∧
    (v < 0 → arctan_cordic_24b 0 v = 0xC00000 ∧ arctan_cordic_24b v 0 = 0x800000) ∧
    (v ≠ 0 → arctan_cordic_24b 0 v = 256 * arctan_cordic 0 v ∧
      arctan_cordic_24b v 0 = 256 * arctan_cordic v 0) := by
  have pos : 0 < v → arctan_cordic_24b 0 v = 0x400000 ∧ arctan_cordic_24b v 0 = 0 := by
    intro h
    have h1 : v ≠ 0 := by omega
    have h2 : v ≥ 0 := by omega
    simp [arctan_cordic_24b, h1, h2]
  have neg : v < 0 → arctan_cordic_24b 0 v = 0xC00000 ∧ arctan_cordic_24b v 0 = 0x800000 := by
    intro h
    have h1 : v ≠ 0 := by omega
    have h2 : ¬ v ≥ 0 := by omega
    simp only [arctan_cordic_24b, if_true, if_neg h1, if_neg h2, and_self]
  refine ⟨pos, neg, fun hne => ?_⟩
  rcases lt_or_gt_of_ne hne with h | h
  · have a := (arctan_cordic_axis_values v).2 h
    have b := neg h
    rw [a.1, a.2, b.1, b.2]
    norm_num
  · have a := (arctan_cordic_axis_values v).1 h
    have b := pos h
    rw [a.1, a.2, b.1, b.2]
    norm_num

/-- Witness of C15 at `v = 7` and `v = -7`. -/
theorem arctan_cordic_24b_axes_witness :
    (isShort 7 ∧ isShort (-7) ∧ (0 : Int) < 7 ∧ (-7 : Int) < 0) ∧
    (arctan_cordic_24b 0 7 = 0x400000 ∧ arctan_cordic_24b 7 0 = 0) ∧
    (arctan_cordic_24b 0 (-7) = 0xC00000 ∧ arctan_cordic_24b (-7) 0 = 0x800000) ∧
    (arctan_cordic_24b 0 (-7) = 256 * arctan_cordic 0 (-7) ∧
      arctan_cordic_24b (-7) 0 = 256 * arctan_cordic (-7) 0) :=
  ⟨by decide, (arctan_cordic_24b_axes 7 (by decide)).1 (by decide),
   (arctan_cordic_24b_axes (-7) (by decide)).2.1 (by decide),
   (arctan_cordic_24b_axes (-7) (by decide)).2.2 (by decide)⟩


/-! ## Pipelined engine and sequential reference -/

/-- Stage `n` of the register file writes into entry `n + 1` what the sequential loop body
computes from the registers holding entry `n`. -/
theorem cordicStage_eq_seqStage (mode : cordic_mode_t) (n : Nat) (r : CordicRegs) :
    ((cordicStage mode n r).x_vec (n + 1), (cordicStage mode n r).y_vec (n + 1),
      (cordicStage mode n r).z_vec (n + 1)) =
      cordicSeqStage mode n (r.x_vec n, r.y_vec n, r.z_vec n) := by
  unfold cordicStage cordicSeqStage
  by_cases h : rot_decision mode (wrapS 32 (if mode = ROTATION then r.z_vec n else r.y_vec n)) ≠ 0
  · simp only [h, if_true, setReg, not_false_eq_true, ne_eq]
  · simp only [h, if_false, setReg, if_true]

theorem cordicLoop_eq_seqLoop (mode : cordic_mode_t) (r0 : CordicRegs) (n : Nat) :
    ((cordicLoop mode n r0).x_vec n, (cordicLoop mode n r0).y_vec n,
      (cordicLoop mode n r0).z_vec n) =
      cordicSeqLoop mode n (r0.x_vec 0, r0.y_vec 0, r0.z_vec 0) := by
  induction n with
  | zero => rfl
  | succ n ih =>
    have e1 : cordicLoop mode (n + 1) r0 = cordicStage mode n (cordicLoop mode n r0) := rfl
    have e2 : cordicSeqLoop mode (n + 1) (r0.x_vec 0, r0.y_vec 0, r0.z_vec 0) =
        cordicSeqStage mode n (cordicSeqLoop mode n (r0.x_vec 0, r0.y_vec 0, r0.z_vec 0)) := rfl
    rw [e1, e2, cordicStage_eq_seqStage, ih]

/-- Stage `i` writes only entry `i + 1` of each array. -/
theorem cordicStage_writes (mode : cordic_mode_t) (i j : Nat) (r : CordicRegs) (h : j ≠ i + 1) :
    (cordicStage mode i r).x_vec j = r.x_vec j ∧ (cordicStage mode i r).y_vec j = r.y_vec j ∧
    (cordicStage mode i r).z_vec j = r.z_vec j := by
  unfold cordicStage
  by_cases hd : rot_decision mode (wrapS 32 (if mode = ROTATION then r.z_vec i else r.y_vec i)) ≠ 0
  · simp only [hd, if_true, setReg, if_neg h, and_self, not_false_eq_true, ne_eq]
  · simp only [hd, if_false, setReg, if_neg h, and_self]

/-- Stage `i` reads only entry `i` of each array. -/
theorem cordicStage_reads (mode : cordic_mode_t) (i : Nat) (r s : CordicRegs)
    (hx : r.x_vec i = s.x_vec i) (hy : r.y_vec i = s.y_vec i) (hz : r.z_vec i = s.z_vec i) :
    (cordicStage mode i r).x_vec (i + 1) = (cordicStage mode i s).x_vec (i + 1) ∧
    (cordicStage mode i r).y_vec (i + 1) = (cordicStage mode i s).y_vec (i + 1) ∧
    (cordicStage mode i r).z_vec (i + 1) = (cordicStage mode i s).z_vec (i + 1) := by
  have a := cordicStage_eq_seqStage mode i r
  have b := cordicStage_eq_seqStage mode i s
  rw [hx, hy, hz, ← b] at a
  simp only [Prod.mk.injEq] at a
  exact a

/-- C18: the pipelined engine (per-stage arrays `x_vec`, `y_vec`, `z_vec`) and the sequential
reference loop kept in the source (registers updated in place, `x_temp` holding the
pre-update `x` read by the `y` update) return the same triple for every `(x0, y0, z0)` and
every mode; a stage of the pipelined form writes only entry `i + 1` and its output depends
only on entry `i`, and the sequential body computes both updates from the pre-update
registers. -/
theorem cordic_pipelined_eq_sequential (x0 y0 z0 : Int) (mode : cordic_mode_t) :
    cordic x0 y0 z0 mode = cordic_seq x0 y0 z0 mode ∧
    (∀ (i j : Nat) (r : CordicRegs), j ≠ i + 1 →
      (cordicStage mode i r).x_vec j = r.x_vec j ∧ (cordicStage mode i r).y_vec j = r.y_vec j ∧
      (cordicStage mode i r).z_vec j = r.z_vec j) ∧
    (∀ (i : Nat) (r s : CordicRegs),
      r.x_vec i = s.x_vec i → r.y_vec i = s.y_vec i → r.z_vec i = s.z_vec i →
      (cordicStage mode i r).x_vec (i + 1) = (cordicStage mode i s).x_vec (i + 1) ∧
      (cordicStage mode i r).y_vec (i + 1) = (cordicStage mode i s).y_vec (i + 1) ∧
      (cordicStage mode i r).z_vec (i + 1) = (cordicStage mode i s).z_vec (i + 1)) ∧
    (∀ (i : Nat) (x y z : Int),
      cordicSeqStage mode i (x, y, z) =
        if rot_decision mode (wrapS 32 (if mode = ROTATION then z else y)) ≠ 0 then
          (wrapS 64 (x + (y >>> i)), wrapS 64 (y - (x >>> i)),
            wrapS 64 (z + atanTable.getD i 0))
        else
          (wrapS 64 (x - (y >>> i)), wrapS 64 (y + (x >>> i)),
            wrapS 64 (z - atanTable.getD i 0))) := by
  refine ⟨?_, fun i j r h => cordicStage_writes mode i j r h,
    fun i r s hx hy hz => cordicStage_reads mode i r s hx hy hz, fun i x y z => ?_⟩
  · have h := cordicLoop_eq_seqLoop mode
      { x_vec := setReg (fun _ => 0) 0 x0
        y_vec := setReg (fun _ => 0) 0 y0
        z_vec := setReg (fun _ => 0) 0 z0 } 24
    have h0 : (setReg (fun _ => 0) 0 x0 0, setReg (fun _ => 0) 0 y0 0, setReg (fun _ => 0) 0 z0 0)
        = (x0, y0, z0) := by simp [setReg]
    simp only [h0, Prod.ext_iff] at h
    unfold cordic cordic_seq
    simp only [ATANTABLESZ]
    rw [h.1, h.2.1, h.2.2]
  · rfl


/-! ## Stage bounds -/

theorem stageBound_nonneg (n : Nat) : 0 ≤ stageBound n := by
  induction n with
  | zero => decide
  | succ n ih =>
    have h : 0 ≤ stageBound n / 2 ^ n := Int.ediv_nonneg ih (by positivity)
    show 0 ≤ stageBound n + stageBound n / 2 ^ n + 1
    omega

theorem stageBound_mono (n : Nat) : stageBound n ≤ stageBound (n + 1) := by
  have h0 := stageBound_nonneg n
  have h : 0 ≤ stageBound n / 2 ^ n := Int.ediv_nonneg h0 (by positivity)
  show stageBound n ≤ stageBound n + stageBound n / 2 ^ n + 1
  omega

theorem stageBound_le (n m : Nat) (h : n ≤ m) : stageBound n ≤ stageBound m := by
  induction m with
  | zero =>
    have : n = 0 := by omega
    subst this
    exact le_refl _
  | succ m ih =>
    by_cases hm : n ≤ m
    · exact le_trans (ih hm) (stageBound_mono m)
    · have : n = m + 1 := by omega
      subst this
      exact le_refl _

theorem stageBound_24 : stageBound 24 = 80001527 := by decide

/-- The floor shift of a value in `[-B, B]` lies in `[-(B >> i) - 1, B >> i]`. -/
theorem ediv_pow_bounds (v B : Int) (i : Nat) (h1 : -B ≤ v) (h2 : v ≤ B) :
    -(B / 2 ^ i) - 1 ≤ v / 2 ^ i ∧ v / 2 ^ i ≤ B / 2 ^ i := by
  have hc : (0 : Int) < 2 ^ i := by positivity
  constructor
  · rw [Int.le_ediv_iff_mul_le hc]
    have hlt := Int.lt_ediv_add_one_mul_self B hc
    have e : (-(B / 2 ^ i) - 1) * 2 ^ i = -((B / 2 ^ i + 1) * 2 ^ i) := by ring
    rw [e]
    omega
  · exact Int.ediv_le_ediv hc h2

/-- One spec step enlarges the bound on `x` and `y` by at most the shifted bound plus one, and
moves `z` by at most the largest table entry. -/
theorem specStep_bounds (mode : cordic_mode_t) (i : Nat) (t : Int × Int × Int) (B Z : Int)
    (hx : -B ≤ t.1 ∧ t.1 ≤ B) (hy : -B ≤ t.2.1 ∧ t.2.1 ≤ B) (hz : -Z ≤ t.2.2 ∧ t.2.2 ≤ Z) :
    (-(B + B / 2 ^ i + 1) ≤ (specStep mode i t).1 ∧ (specStep mode i t).1 ≤ B + B / 2 ^ i + 1) ∧
    (-(B + B / 2 ^ i + 1) ≤ (specStep mode i t).2.1 ∧
      (specStep mode i t).2.1 ≤ B + B / 2 ^ i + 1) ∧
    (-(Z + 4194304) ≤ (specStep mode i t).2.2 ∧ (specStep mode i t).2.2 ≤ Z + 4194304) := by
  have dx := ediv_pow_bounds t.1 B i hx.1 hx.2
  have dy := ediv_pow_bounds t.2.1 B i hy.1 hy.2
  have ht := atanTable_bounds i
  unfold specStep
  split <;> simp only <;> omega

/-- From components of size at most `2^24`, stage `n` of the exact iteration is bounded by
`stageBound n` in `x` and `y`, and by `2^24 + n * 2^22` in `z`. -/
theorem specIter_bounds (mode : cordic_mode_t) (x0 y0 z0 : Int)
    (hx : -16777216 ≤ x0 ∧ x0 ≤ 16777216) (hy : -16777216 ≤ y0 ∧ y0 ≤ 16777216)
    (hz : -16777216 ≤ z0 ∧ z0 ≤ 16777216) (n : Nat) :
    (-stageBound n ≤ (specIter mode n (x0, y0, z0)).1 ∧
      (specIter mode n (x0, y0, z0)).1 ≤ stageBound n) ∧
    (-stageBound n ≤ (specIter mode n (x0, y0, z0)).2.1 ∧
      (specIter mode n (x0, y0, z0)).2.1 ≤ stageBound n) ∧
    (-(16777216 + (n : Int) * 4194304) ≤ (specIter mode n (x0, y0, z0)).2.2 ∧
      (specIter mode n (x0, y0, z0)).2.2 ≤ 16777216 + (n : Int) * 4194304) := by
  induction n with
  | zero =>
    simp only [specIter, stageBound]
    omega
  | succ n ih =>
    have h := specStep_bounds mode n (specIter mode n (x0, y0, z0)) (stageBound n)
      (16777216 + (n : Int) * 4194304) ih.1 ih.2.1 ih.2.2
    have e : specIter mode (n + 1) (x0, y0, z0) = specStep mode n (specIter mode n (x0, y0, z0)) :=
      rfl
    have eb : stageBound (n + 1) = stageBound n + stageBound n / 2 ^ n + 1 := rfl
    rw [e, eb]
    push_cast
    refine ⟨h.1, h.2.1, ?_⟩
    omega

/-- From components of size at most `2^24` every stage triple of the exact iteration fits in
`int`, with `x` and `y` of size at most `80001527`. -/
theorem specIter_fits (mode : cordic_mode_t) (x0 y0 z0 : Int)
    (hx : -16777216 ≤ x0 ∧ x0 ≤ 16777216) (hy : -16777216 ≤ y0 ∧ y0 ≤ 16777216)
    (hz : -16777216 ≤ z0 ∧ z0 ≤ 16777216) (n : Nat) (hn : n ≤ 24) :
    fitsInt (specIter mode n (x0, y0, z0)) ∧
    (-80001527 ≤ (specIter mode n (x0, y0, z0)).1 ∧ (specIter mode n (x0, y0, z0)).1 ≤ 80001527) ∧
    (-80001527 ≤ (specIter mode n (x0, y0, z0)).2.1 ∧
      (specIter mode n (x0, y0, z0)).2.1 ≤ 80001527) := by
  have h := specIter_bounds mode x0 y0 z0 hx hy hz n
  have hb := stageBound_le n 24 hn
  rw [stageBound_24] at hb
  have hn2 : (n : Int) ≤ 24 := by exact_mod_cast hn
  unfold fitsInt isInt
  refine ⟨⟨?_, ?_, ?_⟩, ?_, ?_⟩ <;> omega

/-- On inputs of size at most `2^24` the engine returns the exact 24-step triple, whose `x`
and `y` are of size at most `80001527`. -/
theorem cordic_bounded (mode : cordic_mode_t) (x0 y0 z0 : Int)
    (hx : -16777216 ≤ x0 ∧ x0 ≤ 16777216) (hy : -16777216 ≤ y0 ∧ y0 ≤ 16777216)
    (hz : -16777216 ≤ z0 ∧ z0 ≤ 16777216) :
    cordic x0 y0 z0 mode = toVector3 (specIter mode 24 (x0, y0, z0)) ∧
    (-80001527 ≤ (cordic x0 y0 z0 mode).x ∧ (cordic x0 y0 z0 mode).x ≤ 80001527) ∧
    (-80001527 ≤ (cordic x0 y0 z0 mode).y ∧ (cordic x0 y0 z0 mode).y ≤ 80001527) := by
  have e : cordic x0 y0 z0 mode = toVector3 (specIter mode 24 (x0, y0, z0)) := by
    have h := cordicLoop_spec mode
      { x_vec := setReg (fun _ => 0) 0 x0
        y_vec := setReg (fun _ => 0) 0 y0
        z_vec := setReg (fun _ => 0) 0 z0 } (x0, y0, z0) (by simp [setReg]) 24
      (fun i hi => (specIter_fits mode x0 y0 z0 hx hy hz i (by omega)).1)
    obtain ⟨f1, f2, f3⟩ := (specIter_fits mode x0 y0 z0 hx hy hz 24 (le_refl _)).1
    unfold cordic toVector3
    simp only [ATANTABLESZ]
    rw [← h] at f1 f2 f3 ⊢
    simp only at f1 f2 f3 ⊢
    rw [wrapS32_of_isInt _ f1, wrapS32_of_isInt _ f2, wrapS32_of_isInt _ f3]
  have b := specIter_fits mode x0 y0 z0 hx hy hz 24 (le_refl _)
  rw [e]
  exact ⟨rfl, b.2.1, b.2.2⟩


/-! ## Sine and cosine -/

theorem specBit_range (theta : Int) (k : Nat) : specBit theta k = 0 ∨ specBit theta k = 1 := by
  unfold specBit
  omega

/-- The `char` holding `(theta >> k) & 0x1` is the spec's bit `k`. -/
theorem bit_char_eq (theta : Int) (k : Nat) :
    wrapS 8 (andW 32 (theta >>> k) 0x1) = specBit theta k := by
  rw [andW32_one, shiftRight_eq_div]
  have h := specBit_range theta k
  unfold specBit at *
  apply wrapS_of_range 8 (by decide) <;> norm_num <;> omega

theorem andW32_low22 (v : Int) : andW 32 v 0x003fffff = v % 4194304 := by
  have := andW_mask 32 22 (by decide) v
  simpa using this

/-- The four `if`s of `sin_cos_cordic_24b` on bits that are 0 or 1: the last matching row
assigns all three locals. -/
theorem sinCosSelect_rows (t : Int) :
    sinCosSelect 0 0 t =
      { theta_corrected := some t, invert_cos := some 0, invert_sin := some 0 } ∧
    sinCosSelect 0 1 t =
      { theta_corrected := some (wrapS 32 (0x003fffff - t)), invert_cos := some 1,
        invert_sin := some 0 } ∧
    sinCosSelect 1 0 t =
      { theta_corrected := some t, invert_cos := some 1, invert_sin := some 1 } ∧
    sinCosSelect 1 1 t =
      { theta_corrected := some (wrapS 32 (0x003fffff - t)), invert_cos := some 0,
        invert_sin := some 1 } := by
  refine ⟨?_, ?_, ?_, ?_⟩ <;> simp [sinCosSelect, andW_cmp]

/-- The tail of `sin_cos_cordic_24b` on assigned locals with a folded angle below `2^22`:
the engine output with exact negations. -/
theorem sinCosApply_some (f ic is : Int) (hf : 0 ≤ f ∧ f < 4194304) :
    sinCosApply { theta_corrected := some f, invert_cos := some ic, invert_sin := some is } =
      some
        { cos := if ic = 1 then -(cordic 0x9B6F23 0 (f * 2) ROTATION).x
            else (cordic 0x9B6F23 0 (f * 2) ROTATION).x
          sin := if is = 1 then -(cordic 0x9B6F23 0 (f * 2) ROTATION).y
            else (cordic 0x9B6F23 0 (f * 2) ROTATION).y } := by
  have es : wrapS 32 (shl f 1) = f * 2 := by
    unfold shl
    norm_num
    apply wrapS32_of_isInt
    unfold isInt
    omega
  have hb := cordic_bounded ROTATION 0x9B6F23 0 (f * 2) (by norm_num) (by norm_num)
    (by constructor <;> omega)
  have nx : wrapS 32 (-(cordic 0x9B6F23 0 (f * 2) ROTATION).x) =
      -(cordic 0x9B6F23 0 (f * 2) ROTATION).x :=
    wrapS32_of_isInt _ (by unfold isInt; omega)
  have ny : wrapS 32 (-(cordic 0x9B6F23 0 (f * 2) ROTATION).y) =
      -(cordic 0x9B6F23 0 (f * 2) ROTATION).y :=
    wrapS32_of_isInt _ (by unfold isInt; omega)
  simp only [sinCosApply, es, nx, ny]

/-- The sine/cosine entry point computes the spec's truth table on every `theta`. -/
theorem sin_cos_cordic_24b_eq_spec (theta : Int) :
    sin_cos_cordic_24b theta = some (specSinCos theta) := by
  have h22 := specBit_range theta 22
  have h23 := specBit_range theta 23
  have hm0 : 0 ≤ theta % 4194304 := Int.emod_nonneg _ (by norm_num)
  have hm1 : theta % 4194304 < 4194304 := Int.emod_lt_of_pos _ (by norm_num)
  have rows := sinCosSelect_rows (theta % 4194304)
  have em : wrapS 32 (0x003fffff - theta % 4194304) = 0x3FFFFF - theta % 4194304 :=
    wrapS32_of_isInt _ (by unfold isInt; omega)
  unfold sin_cos_cordic_24b
  simp only [andW32_low22]
  rw [bit_char_eq theta 23, bit_char_eq theta 22]
  unfold specSinCos specFoldAngle
  rcases h23 with a | a <;> rcases h22 with b | b <;> rw [a, b]
  · rw [rows.1, sinCosApply_some _ _ _ ⟨hm0, hm1⟩]
    simp
  · rw [rows.2.1, em, sinCosApply_some _ _ _ ⟨by omega, by omega⟩]
    simp
  · rw [rows.2.2.1, sinCosApply_some _ _ _ ⟨hm0, hm1⟩]
    simp
  · rw [rows.2.2.2, em, sinCosApply_some _ _ _ ⟨by omega, by omega⟩]
    simp

/-- C16: for every 32-bit `theta` exactly one row of the truth table applies and
`sin_cos_cordic_24b(theta)` follows it: with `b23`, `b22` bits 23 and 22 and
`t = theta & 0x3FFFFF`, the folded angle `f` is `t` when `b22 = 0` and `0x3FFFFF - t` when
`b22 = 1`; `(X, Y, _) = cordic(0x9B6F23, 0, f << 1, ROTATION)`; `cos = -X` when `b23 ≠ b22`
and `X` otherwise; `sin = -Y` when `b23 = 1` and `Y` otherwise. The result is defined on
every input. -/
theorem sin_cos_truth_table (theta : Int) (h : isInt theta) :
    (∃! row : Int × Int, (row.1 = 0 ∨ row.1 = 1) ∧ (row.2 = 0 ∨ row.2 = 1) ∧
      row = (specBit theta 23, specBit theta 22)) ∧
    sin_cos_cordic_24b theta =
      some
        { cos := if specBit theta 23 ≠ specBit theta 22 then
              -(cordic 0x9B6F23 0 (shl (specFoldAngle theta) 1) ROTATION).x
            else (cordic 0x9B6F23 0 (shl (specFoldAngle theta) 1) ROTATION).x
          sin := if specBit theta 23 = 1 then
              -(cordic 0x9B6F23 0 (shl (specFoldAngle theta) 1) ROTATION).y
            else (cordic 0x9B6F23 0 (shl (specFoldAngle theta) 1) ROTATION).y } ∧
    specFoldAngle theta =
      (if specBit theta 22 = 0 then andW 32 theta 0x3FFFFF else 0x3FFFFF - andW 32 theta 0x3FFFFF) ∧
    (sin_cos_cordic_24b theta).isSome = true := by
  refine ⟨⟨(specBit theta 23, specBit theta 22),
      ⟨specBit_range theta 23, specBit_range theta 22, rfl⟩, fun row hrow => hrow.2.2⟩, ?_, ?_, ?_⟩
  · rw [sin_cos_cordic_24b_eq_spec]
    have es : shl (specFoldAngle theta) 1 = specFoldAngle theta * 2 := by
      unfold shl; norm_num
    rw [es]
    rfl
  · have e := andW32_low22 theta
    norm_num at e
    unfold specFoldAngle
    rw [e]
  · rw [sin_cos_cordic_24b_eq_spec]
    rfl

set_option maxRecDepth 100000 in
/-- Witness of C16 at `theta = 0x500000` (bit 22 set, bit 23 clear): the angle is mirrored
and the cosine negated. -/
theorem sin_cos_truth_table_witness :
    isInt 5242880 ∧ specBit 5242880 23 = 0 ∧ specBit 5242880 22 = 1 ∧
    specFoldAngle 5242880 = 3145727 ∧
    sin_cos_cordic_24b 5242880 =
      some { cos := -(cordic 0x9B6F23 0 6291454 ROTATION).x,
             sin := (cordic 0x9B6F23 0 6291454 ROTATION).y } :=
  ⟨by decide, by decide, by decide, by decide,
   (sin_cos_truth_table 5242880 (by decide)).2.1.trans (by decide)⟩

/-- C17: wraparound. For every `theta` in `[0, 2^24)`, `sin_cos_cordic_24b(theta + 2^24)`
returns the same `(cos, sin)` pair as `sin_cos_cordic_24b(theta)`. -/
theorem sin_cos_wraparound (theta : Int) (h0 : 0 ≤ theta) (h1 : theta < 2 ^ 24) :
    sin_cos_cordic_24b (theta + 2 ^ 24) = sin_cos_cordic_24b theta := by
  rw [sin_cos_cordic_24b_eq_spec, sin_cos_cordic_24b_eq_spec]
  have b22 : specBit (theta + 2 ^ 24) 22 = specBit theta 22 := by
    unfold specBit; norm_num; omega
  have b23 : specBit (theta + 2 ^ 24) 23 = specBit theta 23 := by
    unfold specBit; norm_num; omega
  have lo : (theta + 2 ^ 24) % 4194304 = theta % 4194304 := by
    norm_num; omega
  unfold specSinCos specFoldAngle
  rw [b22, b23, lo]

set_option maxRecDepth 100000 in
/-- Witness of C17 at `theta = 1000000`. -/
theorem sin_cos_wraparound_witness :
    ((0 : Int) ≤ 1000000 ∧ (1000000 : Int) < 2 ^ 24) ∧
    sin_cos_cordic_24b (1000000 + 2 ^ 24) = sin_cos_cordic_24b 1000000 ∧
    sin_cos_cordic_24b 1000000 = some { cos := 15612079, sin := 6136449 } :=
  ⟨by decide, sin_cos_wraparound 1000000 (by decide) (by decide), by decide⟩


/-! ## The gain constant -/

/-- C20: `CORDIC_GAIN = 0x9B75 = 39797` is the nearest integer to `2^16 / K`, where
`K^2 = prod_{i=0}^{23} (1 + 4^-i)` is the squared gain of the 24 stages, stated without
roots as `(2*39797 - 1)^2 * K^2 ≤ 2^34 ≤ (2*39797 + 1)^2 * K^2`; it is also the nearest
integer to `2^16 * 0.60725293`. -/
theorem cordic_gain_constant :
    CORDIC_GAIN = 39797 ∧
    (2 * (CORDIC_GAIN : ℚ) - 1) ^ 2 * cordicGainSq ≤ 2 ^ 34 ∧
    2 ^ 34 ≤ (2 * (CORDIC_GAIN : ℚ) + 1) ^ 2 * cordicGainSq ∧
    |(CORDIC_GAIN : ℚ) - 2 ^ 16 * 0.60725293| ≤ 1 / 2 := by
  unfold cordicGainSq ATANTABLESZ CORDIC_GAIN
  simp only [Finset.prod_range_succ, Finset.prod_range_zero]
  refine ⟨by norm_num, by norm_num, by norm_num, ?_⟩
  rw [abs_le]
  constructor <;> norm_num


/-! ## The angle table -/

open Filter Finset in
/-- The partial sums of the arctangent series with an even number of terms are lower bounds,
those with an odd number of terms upper bounds, for `0 ≤ x ≤ 1/2`. -/
theorem arctan_partial_sums (x : ℝ) (h0 : 0 ≤ x) (h1 : x ≤ 1 / 2) (k : ℕ) :
    ∑ i ∈ range (2 * k), (-1 : ℝ) ^ i * (x ^ (2 * i + 1) / ((2 * i + 1 : ℕ) : ℝ)) ≤ Real.arctan x ∧
    Real.arctan x ≤ ∑ i ∈ range (2 * k + 1), (-1 : ℝ) ^ i * (x ^ (2 * i + 1) / ((2 * i + 1 : ℕ) : ℝ)) := by
  have hx : ‖x‖ < 1 := by
    rw [Real.norm_eq_abs, abs_of_nonneg h0]
    linarith
  have hs := (Real.hasSum_arctan hx).tendsto_sum_nat
  have hs2 : Tendsto (fun n => ∑ i ∈ range n, (-1 : ℝ) ^ i * (x ^ (2 * i + 1) / ((2 * i + 1 : ℕ) : ℝ)))
      atTop (nhds (Real.arctan x)) := by
    refine hs.congr (fun n => ?_)
    apply Finset.sum_congr rfl
    intro i _
    rw [mul_div_assoc]
  have ha : Antitone (fun i : ℕ => x ^ (2 * i + 1) / ((2 * i + 1 : ℕ) : ℝ)) := by
    apply antitone_nat_of_succ_le
    intro n
    have hp : x ^ (2 * (n + 1) + 1) ≤ x ^ (2 * n + 1) :=
      pow_le_pow_of_le_one h0 (by linarith) (by omega)
    have hd : (((2 * n + 1 : ℕ) : ℝ)) ≤ ((2 * (n + 1) + 1 : ℕ) : ℝ) := by
      exact_mod_cast (by omega : 2 * n + 1 ≤ 2 * (n + 1) + 1)
    have hpos : (0 : ℝ) < ((2 * n + 1 : ℕ) : ℝ) := by exact_mod_cast (by omega : 0 < 2 * n + 1)
    exact div_le_div₀ (pow_nonneg h0 _) hp hpos hd
  exact ⟨ha.alternating_series_le_tendsto hs2 k, ha.tendsto_le_alternating_series hs2 k⟩

/-- An integer `T ≥ 1` is within `1/2` of `2^24 * a / π` once `a` is enclosed by `L` and `U`
that are close enough, measured against the 20-digit bounds on `π`. -/
theorem table_entry_near {T a L U : ℝ} (hL : L ≤ a) (hU : a ≤ U) (hT : 1 / 2 ≤ T)
    (h1 : (T - 1 / 2) * 3.14159265358979323847 ≤ 2 ^ 24 * L)
    (h2 : 2 ^ 24 * U ≤ (T + 1 / 2) * 3.14159265358979323846) :
    |T - 2 ^ 24 * a / Real.pi| ≤ 1 / 2 := by
  have hp := Real.pi_pos
  have hlo := Real.pi_gt_d20
  have hhi := Real.pi_lt_d20
  have e1 : (T - 1 / 2) * Real.pi ≤ 2 ^ 24 * a := by
    have : (T - 1 / 2) * Real.pi ≤ (T - 1 / 2) * 3.14159265358979323847 :=
      mul_le_mul_of_nonneg_left (le_of_lt hhi) (by linarith)
    linarith
  have e2 : 2 ^ 24 * a ≤ (T + 1 / 2) * Real.pi := by
    have : (T + 1 / 2) * 3.14159265358979323846 ≤ (T + 1 / 2) * Real.pi :=
      mul_le_mul_of_nonneg_left (le_of_lt hlo) (by linarith)
    linarith
  rw [abs_le]
  constructor
  · have : 2 ^ 24 * a / Real.pi ≤ T + 1 / 2 := by
      rw [div_le_iff₀ hp]; exact e2
    linarith
  · have : T - 1 / 2 ≤ 2 ^ 24 * a / Real.pi := by
      rw [le_div_iff₀ hp]; exact e1
    linarith

theorem atanTable_entry_0 :
    |(4194304 : ℝ) - 2 ^ 24 * Real.arctan (1 / 2 ^ 0) / Real.pi| ≤ 1 / 2 := by
  have e : Real.arctan (1 / 2 ^ 0) = Real.pi / 4 := by
    rw [pow_zero, div_one, Real.arctan_one]
  have hp := Real.pi_ne_zero
  rw [e]
  have : 2 ^ 24 * (Real.pi / 4) / Real.pi = (4194304 : ℝ) := by
    field_simp
    ring
  rw [this]
  norm_num


theorem atanTable_entry_1 :
    |(2476042 : ℝ) - 2 ^ 24 * Real.arctan (1 / 2 ^ 1) / Real.pi| ≤ 1 / 2 :=
  table_entry_near (arctan_partial_sums (1 / 2 ^ 1) (by norm_num) (by norm_num) 5).1
    (arctan_partial_sums (1 / 2 ^ 1) (by norm_num) (by norm_num) 5).2 (by norm_num)
    (by norm_num [Finset.sum_range_succ]) (by norm_num [Finset.sum_range_succ])

theorem atanTable_entry_2 :
    |(1308273 : ℝ) - 2 ^ 24 * Real.arctan (1 / 2 ^ 2) / Real.pi| ≤ 1 / 2 :=
  table_entry_near (arctan_partial_sums (1 / 2 ^ 2) (by norm_num) (by norm_num) 3).1
    (arctan_partial_sums (1 / 2 ^ 2) (by norm_num) (by norm_num) 2).2 (by norm_num)
    (by norm_num [Finset.sum_range_succ]) (by norm_num [Finset.sum_range_succ])

theorem atanTable_entry_3 :
    |(664100 : ℝ) - 2 ^ 24 * Real.arctan (1 / 2 ^ 3) / Real.pi| ≤ 1 / 2 :=
  table_entry_near (arctan_partial_sums (1 / 2 ^ 3) (by norm_num) (by norm_num) 2).1
    (arctan_partial_sums (1 / 2 ^ 3) (by norm_num) (by norm_num) 1).2 (by norm_num)
    (by norm_num [Finset.sum_range_succ]) (by norm_num [Finset.sum_range_succ])

theorem atanTable_entry_4 :
    |(333339 : ℝ) - 2 ^ 24 * Real.arctan (1 / 2 ^ 4) / Real.pi| ≤ 1 / 2 :=
  table_entry_near (arctan_partial_sums (1 / 2 ^ 4) (by norm_num) (by norm_num) 2).1
    (arctan_partial_sums (1 / 2 ^ 4) (by norm_num) (by norm_num) 1).2 (by norm_num)
    (by norm_num [Finset.sum_range_succ]) (by norm_num [Finset.sum_range_succ])

theorem atanTable_entry_5 :
    |(166832 : ℝ) - 2 ^ 24 * Real.arctan (1 / 2 ^ 5) / Real.pi| ≤ 1 / 2 :=
  table_entry_near (arctan_partial_sums (1 / 2 ^ 5) (by norm_num) (by norm_num) 1).1
    (arctan_partial_sums (1 / 2 ^ 5) (by norm_num) (by norm_num) 1).2 (by norm_num)
    (by norm_num [Finset.sum_range_succ]) (by norm_num [Finset.sum_range_succ])

theorem atanTable_entry_6 :
    |(83436 : ℝ) - 2 ^ 24 * Real.arctan (1 / 2 ^ 6) / Real.pi| ≤ 1 / 2 :=
  table_entry_near (arctan_partial_sums (1 / 2 ^ 6) (by norm_num) (by norm_num) 1).1
    (arctan_partial_sums (1 / 2 ^ 6) (by norm_num) (by norm_num) 1).2 (by norm_num)
    (by norm_num [Finset.sum_range_succ]) (by norm_num [Finset.sum_range_succ])

theorem atanTable_entry_7 :
    |(41721 : ℝ) - 2 ^ 24 * Real.arctan (1 / 2 ^ 7) / Real.pi| ≤ 1 / 2 :=
  table_entry_near (arctan_partial_sums (1 / 2 ^ 7) (by norm_num) (by norm_num) 1).1
    (arctan_partial_sums (1 / 2 ^ 7) (by norm_num) (by norm_num) 1).2 (by norm_num)
    (by norm_num [Finset.sum_range_succ]) (by norm_num [Finset.sum_range_succ])

theorem atanTable_entry_8 :
    |(20861 : ℝ) - 2 ^ 24 * Real.arctan (1 / 2 ^ 8) / Real.pi| ≤ 1 / 2 :=
  table_entry_near (arctan_partial_sums (1 / 2 ^ 8) (by norm_num) (by norm_num) 1).1
    (arctan_partial_sums (1 / 2 ^ 8) (by norm_num) (by norm_num) 0).2 (by norm_num)
    (by norm_num [Finset.sum_range_succ]) (by norm_num [Finset.sum_range_succ])

theorem atanTable_entry_9 :
    |(10430 : ℝ) - 2 ^ 24 * Real.arctan (1 / 2 ^ 9) / Real.pi| ≤ 1 / 2 :=
  table_entry_near (arctan_partial_sums (1 / 2 ^ 9) (by norm_num) (by norm_num) 1).1
    (arctan_partial_sums (1 / 2 ^ 9) (by norm_num) (by norm_num) 0).2 (by norm_num)
    (by norm_num [Finset.sum_range_succ]) (by norm_num [Finset.sum_range_succ])

theorem atanTable_entry_10 :
    |(5215 : ℝ) - 2 ^ 24 * Real.arctan (1 / 2 ^ 10) / Real.pi| ≤ 1 / 2 :=
  table_entry_near (arctan_partial_sums (1 / 2 ^ 10) (by norm_num) (by norm_num) 1).1
    (arctan_partial_sums (1 / 2 ^ 10) (by norm_num) (by norm_num) 0).2 (by norm_num)
    (by norm_num [Finset.sum_range_succ]) (by norm_num [Finset.sum_range_succ])

theorem atanTable_entry_11 :
    |(2608 : ℝ) - 2 ^ 24 * Real.arctan (1 / 2 ^ 11) / Real.pi| ≤ 1 / 2 :=
  table_entry_near (arctan_partial_sums (1 / 2 ^ 11) (by norm_num) (by norm_num) 1).1
    (arctan_partial_sums (1 / 2 ^ 11) (by norm_num) (by norm_num) 0).2 (by norm_num)
    (by norm_num [Finset.sum_range_succ]) (by norm_num [Finset.sum_range_succ])

theorem atanTable_entry_12 :
    |(1304 : ℝ) - 2 ^ 24 * Real.arctan (1 / 2 ^ 12) / Real.pi| ≤ 1 / 2 :=
  table_entry_near (arctan_partial_sums (1 / 2 ^ 12) (by norm_num) (by norm_num) 1).1
    (arctan_partial_sums (1 / 2 ^ 12) (by norm_num) (by norm_num) 0).2 (by norm_num)
    (by norm_num [Finset.sum_range_succ]) (by norm_num [Finset.sum_range_succ])

theorem atanTable_entry_13 :
    |(652 : ℝ) - 2 ^ 24 * Real.arctan (1 / 2 ^ 13) / Real.pi| ≤ 1 / 2 :=
  table_entry_near (arctan_partial_sums (1 / 2 ^ 13) (by norm_num) (by norm_num) 1).1
    (arctan_partial_sums (1 / 2 ^ 13) (by norm_num) (by norm_num) 0).2 (by norm_num)
    (by norm_num [Finset.sum_range_succ]) (by norm_num [Finset.sum_range_succ])

theorem atanTable_entry_14 :
    |(326 : ℝ) - 2 ^ 24 * Real.arctan (1 / 2 ^ 14) / Real.pi| ≤ 1 / 2 :=
  table_entry_near (arctan_partial_sums (1 / 2 ^ 14) (by norm_num) (by norm_num) 1).1
    (arctan_partial_sums (1 / 2 ^ 14) (by norm_num) (by norm_num) 0).2 (by norm_num)
    (by norm_num [Finset.sum_range_succ]) (by norm_num [Finset.sum_range_succ])

theorem atanTable_entry_15 :
    |(163 : ℝ) - 2 ^ 24 * Real.arctan (1 / 2 ^ 15) / Real.pi| ≤ 1 / 2 :=
  table_entry_near (arctan_partial_sums (1 / 2 ^ 15) (by norm_num) (by norm_num) 1).1
    (arctan_partial_sums (1 / 2 ^ 15) (by norm_num) (by norm_num) 0).2 (by norm_num)
    (by norm_num [Finset.sum_range_succ]) (by norm_num [Finset.sum_range_succ])

theorem atanTable_entry_16 :
    |(81 : ℝ) - 2 ^ 24 * Real.arctan (1 / 2 ^ 16) / Real.pi| ≤ 1 / 2 :=
  table_entry_near (arctan_partial_sums (1 / 2 ^ 16) (by norm_num) (by norm_num) 1).1
    (arctan_partial_sums (1 / 2 ^ 16) (by norm_num) (by norm_num) 0).2 (by norm_num)
    (by norm_num [Finset.sum_range_succ]) (by norm_num [Finset.sum_range_succ])

theorem atanTable_entry_17 :
    |(41 : ℝ) - 2 ^ 24 * Real.arctan (1 / 2 ^ 17) / Real.pi| ≤ 1 / 2 :=
  table_entry_near (arctan_partial_sums (1 / 2 ^ 17) (by norm_num) (by norm_num) 1).1
    (arctan_partial_sums (1 / 2 ^ 17) (by norm_num) (by norm_num) 0).2 (by norm_num)
    (by norm_num [Finset.sum_range_succ]) (by norm_num [Finset.sum_range_succ])

theorem atanTable_entry_18 :
    |(20 : ℝ) - 2 ^ 24 * Real.arctan (1 / 2 ^ 18) / Real.pi| ≤ 1 / 2 :=
  table_entry_near (arctan_partial_sums (1 / 2 ^ 18) (by norm_num) (by norm_num) 1).1
    (arctan_partial_sums (1 / 2 ^ 18) (by norm_num) (by norm_num) 0).2 (by norm_num)
    (by norm_num [Finset.sum_range_succ]) (by norm_num [Finset.sum_range_succ])

theorem atanTable_entry_19 :
    |(10 : ℝ) - 2 ^ 24 * Real.arctan (1 / 2 ^ 19) / Real.pi| ≤ 1 / 2 :=
  table_entry_near (arctan_partial_sums (1 / 2 ^ 19) (by norm_num) (by norm_num) 1).1
    (arctan_partial_sums (1 / 2 ^ 19) (by norm_num) (by norm_num) 0).2 (by norm_num)
    (by norm_num [Finset.sum_range_succ]) (by norm_num [Finset.sum_range_succ])

theorem atanTable_entry_20 :
    |(5 : ℝ) - 2 ^ 24 * Real.arctan (1 / 2 ^ 20) / Real.pi| ≤ 1 / 2 :=
  table_entry_near (arctan_partial_sums (1 / 2 ^ 20) (by norm_num) (by norm_num) 1).1
    (arctan_partial_sums (1 / 2 ^ 20) (by norm_num) (by norm_num) 0).2 (by norm_num)
    (by norm_num [Finset.sum_range_succ]) (by norm_num [Finset.sum_range_succ])

theorem atanTable_entry_21 :
    |(3 : ℝ) - 2 ^ 24 * Real.arctan (1 / 2 ^ 21) / Real.pi| ≤ 1 / 2 :=
  table_entry_near (arctan_partial_sums (1 / 2 ^ 21) (by norm_num) (by norm_num) 1).1
    (arctan_partial_sums (1 / 2 ^ 21) (by norm_num) (by norm_num) 0).2 (by norm_num)
    (by norm_num [Finset.sum_range_succ]) (by norm_num [Finset.sum_range_succ])

theorem atanTable_entry_22 :
    |(1 : ℝ) - 2 ^ 24 * Real.arctan (1 / 2 ^ 22) / Real.pi| ≤ 1 / 2 :=
  table_entry_near (arctan_partial_sums (1 / 2 ^ 22) (by norm_num) (by norm_num) 1).1
    (arctan_partial_sums (1 / 2 ^ 22) (by norm_num) (by norm_num) 0).2 (by norm_num)
    (by norm_num [Finset.sum_range_succ]) (by norm_num [Finset.sum_range_succ])

theorem atanTable_entry_23 :
    |(1 : ℝ) - 2 ^ 24 * Real.arctan (1 / 2 ^ 23) / Real.pi| ≤ 1 / 2 :=
  table_entry_near (arctan_partial_sums (1 / 2 ^ 23) (by norm_num) (by norm_num) 1).1
    (arctan_partial_sums (1 / 2 ^ 23) (by norm_num) (by norm_num) 0).2 (by norm_num)
    (by norm_num [Finset.sum_range_succ]) (by norm_num [Finset.sum_range_succ])

/-- C19: the angle table has exactly 24 entries and, for every `i` in `0..23`, `atanTable[i]`
is the nearest integer to `2^24 * atan(2^-i) / π`: over the reals
`|atanTable[i] - 2^24 * atan(1 / 2^i) / π| ≤ 1/2`; entry 0 is exactly `2^22`. -/
theorem atanTable_nearest :
    atanTable.length = 24 ∧
    (∀ i : Nat, i < 24 →
      |((atanTable.getD i 0 : Int) : ℝ) - 2 ^ 24 * Real.arctan (1 / 2 ^ i) / Real.pi| ≤ 1 / 2) ∧
    atanTable.getD 0 0 = 2 ^ 22 := by
  refine ⟨rfl, fun i hi => ?_, by decide⟩
  interval_cases i
  · rw [show atanTable.getD 0 0 = 4194304 from rfl]
    exact_mod_cast atanTable_entry_0
  · rw [show atanTable.getD 1 0 = 2476042 from rfl]
    exact_mod_cast atanTable_entry_1
  · rw [show atanTable.getD 2 0 = 1308273 from rfl]
    exact_mod_cast atanTable_entry_2
  · rw [show atanTable.getD 3 0 = 664100 from rfl]
    exact_mod_cast atanTable_entry_3
  · rw [show atanTable.getD 4 0 = 333339 from rfl]
    exact_mod_cast atanTable_entry_4
  · rw [show atanTable.getD 5 0 = 166832 from rfl]
    exact_mod_cast atanTable_entry_5
  · rw [show atanTable.getD 6 0 = 83436 from rfl]
    exact_mod_cast atanTable_entry_6
  · rw [show atanTable.getD 7 0 = 41721 from rfl]
    exact_mod_cast atanTable_entry_7
  · rw [show atanTable.getD 8 0 = 20861 from rfl]
    exact_mod_cast atanTable_entry_8
  · rw [show atanTable.getD 9 0 = 10430 from rfl]
    exact_mod_cast atanTable_entry_9
  · rw [show atanTable.getD 10 0 = 5215 from rfl]
    exact_mod_cast atanTable_entry_10
  · rw [show atanTable.getD 11 0 = 2608 from rfl]
    exact_mod_cast atanTable_entry_11
  · rw [show atanTable.getD 12 0 = 1304 from rfl]
    exact_mod_cast atanTable_entry_12
  · rw [show atanTable.getD 13 0 = 652 from rfl]
    exact_mod_cast atanTable_entry_13
  · rw [show atanTable.getD 14 0 = 326 from rfl]
    exact_mod_cast atanTable_entry_14
  · rw [show atanTable.getD 15 0 = 163 from rfl]
    exact_mod_cast atanTable_entry_15
  · rw [show atanTable.getD 16 0 = 81 from rfl]
    exact_mod_cast atanTable_entry_16
  · rw [show atanTable.getD 17 0 = 41 from rfl]
    exact_mod_cast atanTable_entry_17
  · rw [show atanTable.getD 18 0 = 20 from rfl]
    exact_mod_cast atanTable_entry_18
  · rw [show atanTable.getD 19 0 = 10 from rfl]
    exact_mod_cast atanTable_entry_19
  · rw [show atanTable.getD 20 0 = 5 from rfl]
    exact_mod_cast atanTable_entry_20
  · rw [show atanTable.getD 21 0 = 3 from rfl]
    exact_mod_cast atanTable_entry_21
  · rw [show atanTable.getD 22 0 = 1 from rfl]
    exact_mod_cast atanTable_entry_22
  · rw [show atanTable.getD 23 0 = 1 from rfl]
    exact_mod_cast atanTable_entry_23

/-- Witness of C19 at `i = 4`, the entry closest to a rounding boundary
(`2^24 * atan(1/16) / π` is about `333338.524`). -/
theorem atanTable_nearest_witness :
    (4 : Nat) < 24 ∧ atanTable.getD 4 0 = 333339 ∧
    |((atanTable.getD 4 0 : Int) : ℝ) - 2 ^ 24 * Real.arctan (1 / 2 ^ 4) / Real.pi| ≤ 1 / 2 :=
  ⟨by decide, by decide, atanTable_nearest.2.1 4 (by decide)⟩


/-! ## The engine on the sequential form -/

theorem cordicSeqStage_eq (mode : cordic_mode_t) (i : Nat) (x y z : Int) :
    cordicSeqStage mode i (x, y, z) =
      if rot_decision mode (wrapS 32 (if mode = ROTATION then z else y)) ≠ 0 then
        (wrapS 64 (x + (y >>> i)), wrapS 64 (y - (x >>> i)), wrapS 64 (z + atanTable.getD i 0))
      else
        (wrapS 64 (x - (y >>> i)), wrapS 64 (y + (x >>> i)), wrapS 64 (z - atanTable.getD i 0)) :=
  rfl

theorem cordic_eq_seqLoop (x0 y0 z0 : Int) (mode : cordic_mode_t) :
    cordic x0 y0 z0 mode =
      { x := wrapS 32 (cordicSeqLoop mode 24 (x0, y0, z0)).1
        y := wrapS 32 (cordicSeqLoop mode 24 (x0, y0, z0)).2.1
        z := wrapS 32 (cordicSeqLoop mode 24 (x0, y0, z0)).2.2 } := by
  have h := cordicLoop_eq_seqLoop mode (cordicInit x0 y0 z0) 24
  have h0 : ((cordicInit x0 y0 z0).x_vec 0, (cordicInit x0 y0 z0).y_vec 0,
      (cordicInit x0 y0 z0).z_vec 0) = (x0, y0, z0) := by simp [cordicInit, setReg]
  rw [h0] at h
  have e : cordic x0 y0 z0 mode =
      { x := wrapS 32 ((cordicLoop mode 24 (cordicInit x0 y0 z0)).x_vec 24)
        y := wrapS 32 ((cordicLoop mode 24 (cordicInit x0 y0 z0)).y_vec 24)
        z := wrapS 32 ((cordicLoop mode 24 (cordicInit x0 y0 z0)).z_vec 24) } := rfl
  rw [e, ← h]

/-! ## Vector mode: the angle accumulator does not reach the vector -/

theorem wrapS64_sub_emod (v c : Int) :
    (wrapS 64 v - c) % 18446744073709551616 = (v - c) % 18446744073709551616 := by
  unfold wrapS
  norm_num
  omega

/-- In `VECTOR` mode two runs from the same `(x0, y0)` keep the same `x` and `y`, and their
`z` registers differ from the initial angles by the same amount modulo `2^64`. -/
theorem seqLoop_vector_indep (x0 y0 z0 z1 : Int) (n : Nat) :
    (cordicSeqLoop VECTOR n (x0, y0, z0)).1 = (cordicSeqLoop VECTOR n (x0, y0, z1)).1 ∧
    (cordicSeqLoop VECTOR n (x0, y0, z0)).2.1 = (cordicSeqLoop VECTOR n (x0, y0, z1)).2.1 ∧
    ((cordicSeqLoop VECTOR n (x0, y0, z0)).2.2 - z0) % 18446744073709551616 =
      ((cordicSeqLoop VECTOR n (x0, y0, z1)).2.2 - z1) % 18446744073709551616 := by
  induction n with
  | zero => simp [cordicSeqLoop]
  | succ n ih =>
    have ea : cordicSeqLoop VECTOR (n + 1) (x0, y0, z0) =
        cordicSeqStage VECTOR n (cordicSeqLoop VECTOR n (x0, y0, z0)) := rfl
    have eb : cordicSeqLoop VECTOR (n + 1) (x0, y0, z1) =
        cordicSeqStage VECTOR n (cordicSeqLoop VECTOR n (x0, y0, z1)) := rfl
    rw [ea, eb]
    revert ih
    generalize cordicSeqLoop VECTOR n (x0, y0, z0) = sa
    generalize cordicSeqLoop VECTOR n (x0, y0, z1) = sb
    intro ih
    obtain ⟨xa, ya, za⟩ := sa
    obtain ⟨xb, yb, zb⟩ := sb
    simp only at ih
    obtain ⟨hx, hy, hz⟩ := ih
    subst hx hy
    rw [cordicSeqStage_eq, cordicSeqStage_eq]
    have hm : ¬ (VECTOR = ROTATION) := by decide
    simp only [if_neg hm]
    split
    · refine ⟨rfl, rfl, ?_⟩
      simp only
      rw [wrapS64_sub_emod, wrapS64_sub_emod]
      omega
    · refine ⟨rfl, rfl, ?_⟩
      simp only
      rw [wrapS64_sub_emod, wrapS64_sub_emod]
      omega

/-- C26: in `VECTOR` mode the angle accumulator never influences the vector. For every `x0`,
`y0` and every `z0`, `z0'` the `x` and `y` fields of `cordic(x0, y0, z0, VECTOR)` and
`cordic(x0, y0, z0', VECTOR)` are equal, and the `z` field of `cordic(x0, y0, z0, VECTOR)` is
`z0` plus the `z` field of `cordic(x0, y0, 0, VECTOR)` in the wrapping arithmetic of the
32-bit result field. -/
theorem cordic_vector_angle_independent (x0 y0 z0 z1 : Int) :
    (cordic x0 y0 z0 VECTOR).x = (cordic x0 y0 z1 VECTOR).x ∧
    (cordic x0 y0 z0 VECTOR).y = (cordic x0 y0 z1 VECTOR).y ∧
    (cordic x0 y0 z0 VECTOR).z = wrapS 32 (z0 + (cordic x0 y0 0 VECTOR).z) := by
  have h := seqLoop_vector_indep x0 y0 z0 z1 24
  have h2 := seqLoop_vector_indep x0 y0 z0 0 24
  rw [cordic_eq_seqLoop x0 y0 z0, cordic_eq_seqLoop x0 y0 z1, cordic_eq_seqLoop x0 y0 0]
  simp only
  refine ⟨by rw [h.1], by rw [h.2.1], ?_⟩
  have h3 := h2.2.2
  generalize (cordicSeqLoop VECTOR 24 (x0, y0, z0)).2.2 = a at h3 ⊢
  generalize (cordicSeqLoop VECTOR 24 (x0, y0, 0)).2.2 = b at h3 ⊢
  unfold wrapS
  norm_num
  omega


/-! ## Rotation mode: convergence of the angle accumulator -/

/-- The table inequality behind the convergence: every entry is at most the last entry plus
the sum of the entries after it, and the bound drops by the entry applied. -/
theorem zBound_step (i : Nat) (h : i < 24) :
    atanTable.getD i 0 ≤ zBound (i + 1) ∧ zBound i = zBound (i + 1) + atanTable.getD i 0 ∧
    0 ≤ atanTable.getD i 0 := by
  interval_cases i <;> decide

theorem zBound_le (n : Nat) : zBound n ≤ 9309769 := by
  by_cases h : n < 25
  · interval_cases n <;> decide
  · have e : atanTable.drop n = [] := by
      apply List.drop_eq_nil_of_le
      simp [atanTable]
      omega
    unfold zBound
    rw [e]
    decide

/-- In `ROTATION` mode the `z` register after `n` stages is within `zBound n`, whatever `x`
and `y` are. -/
theorem seqLoop_rotation_z (x0 y0 z0 : Int) (hz : -9309768 ≤ z0 ∧ z0 ≤ 9309768) (n : Nat)
    (hn : n ≤ 24) :
    -zBound n ≤ (cordicSeqLoop ROTATION n (x0, y0, z0)).2.2 ∧
    (cordicSeqLoop ROTATION n (x0, y0, z0)).2.2 ≤ zBound n := by
  induction n with
  | zero =>
    have e : zBound 0 = 9309769 := by decide
    rw [e]
    simp only [cordicSeqLoop]
    omega
  | succ n ih =>
    have ih2 := ih (by omega)
    have e : cordicSeqLoop ROTATION (n + 1) (x0, y0, z0) =
        cordicSeqStage ROTATION n (cordicSeqLoop ROTATION n (x0, y0, z0)) := rfl
    rw [e]
    revert ih2
    generalize cordicSeqLoop ROTATION n (x0, y0, z0) = s
    intro ih2
    obtain ⟨x, y, z⟩ := s
    simp only at ih2
    have hs := zBound_step n (by omega)
    have hb := zBound_le n
    have hb1 := zBound_le (n + 1)
    have hw : wrapS 32 z = z := wrapS32_of_isInt z (by unfold isInt; omega)
    rw [cordicSeqStage_eq]
    simp only [if_true, hw]
    by_cases hneg : z < 0
    · have hd : rot_decision ROTATION z ≠ 0 := by simp [rot_decision, hneg]
      rw [if_pos hd]
      simp only
      rw [wrapS64_of_isLong _ (by unfold isLong; omega)]
      omega
    · have hd : ¬ rot_decision ROTATION z ≠ 0 := by simp [rot_decision, hneg]
      rw [if_neg hd]
      simp only
      rw [wrapS64_of_isLong _ (by unfold isLong; omega)]
      omega

/-- C21: rotation-mode convergence. For every `x0`, `y0` and every `z0` with
`|z0| ≤ 9309768` (the sum of the 24 table entries) the `z` field of
`cordic(x0, y0, z0, ROTATION)` satisfies `|z| ≤ 1`, the last table entry; the table satisfies
`atanTable[i] ≤ atanTable[23] + sum_{j>i} atanTable[j]` for every `i`. -/
theorem cordic_rotation_converges (x0 y0 z0 : Int) (hz : |z0| ≤ 9309768) :
    |(cordic x0 y0 z0 ROTATION).z| ≤ 1 ∧ atanTable.sum = 9309768 ∧ atanTable.getD 23 0 = 1 ∧
    ∀ i : Nat, i < 24 →
      atanTable.getD i 0 ≤ atanTable.getD 23 0 + (atanTable.drop (i + 1)).sum := by
  have hz2 := abs_le.mp hz
  have h := seqLoop_rotation_z x0 y0 z0 hz2 24 (le_refl _)
  have e : zBound 24 = 1 := by decide
  rw [e] at h
  refine ⟨?_, by decide, by decide, fun i hi => (zBound_step i hi).1⟩
  rw [cordic_eq_seqLoop]
  simp only
  rw [wrapS32_of_isInt _ (by unfold isInt; omega)]
  exact abs_le.mpr h

set_option maxRecDepth 100000 in
/-- Witness of C21 at `(12345, -999, 9309768)`: the largest admitted angle is driven to 0. -/
theorem cordic_rotation_converges_witness :
    |(9309768 : Int)| ≤ 9309768 ∧ |(cordic 12345 (-999) 9309768 ROTATION).z| ≤ 1 ∧
    cordic 12345 (-999) 9309768 ROTATION = { x := -1859, y := 20294, z := 0 } :=
  ⟨by decide, (cordic_rotation_converges 12345 (-999) 9309768 (by decide)).1, by decide⟩


/-! ## No accumulator overflow -/

/-- Later stages leave the earlier entries of the register arrays as they were written. -/
theorem cordicLoop_stable (mode : cordic_mode_t) (r0 : CordicRegs) (i n : Nat) (h : i ≤ n) :
    (cordicLoop mode n r0).x_vec i = (cordicLoop mode i r0).x_vec i ∧
    (cordicLoop mode n r0).y_vec i = (cordicLoop mode i r0).y_vec i ∧
    (cordicLoop mode n r0).z_vec i = (cordicLoop mode i r0).z_vec i := by
  induction n with
  | zero =>
    have : i = 0 := by omega
    subst this
    exact ⟨rfl, rfl, rfl⟩
  | succ n ih =>
    by_cases hi : i = n + 1
    · subst hi
      exact ⟨rfl, rfl, rfl⟩
    · have ih2 := ih (by omega)
      have e : cordicLoop mode (n + 1) r0 = cordicStage mode n (cordicLoop mode n r0) := rfl
      have w := cordicStage_writes mode n i (cordicLoop mode n r0) hi
      rw [e, w.1, w.2.1, w.2.2]
      exact ih2

/-- On inputs of size at most `2^24`, entry `i` of the final register arrays is the exact
stage-`i` triple. -/
theorem cordicRegs_eq_specIter (mode : cordic_mode_t) (x0 y0 z0 : Int)
    (hx : -16777216 ≤ x0 ∧ x0 ≤ 16777216) (hy : -16777216 ≤ y0 ∧ y0 ≤ 16777216)
    (hz : -16777216 ≤ z0 ∧ z0 ≤ 16777216) (i : Nat) (hi : i ≤ 24) :
    ((cordicLoop mode 24 (cordicInit x0 y0 z0)).x_vec i,
      (cordicLoop mode 24 (cordicInit x0 y0 z0)).y_vec i,
      (cordicLoop mode 24 (cordicInit x0 y0 z0)).z_vec i) = specIter mode i (x0, y0, z0) := by
  have st := cordicLoop_stable mode (cordicInit x0 y0 z0) i 24 hi
  rw [st.1, st.2.1, st.2.2]
  exact cordicLoop_spec mode (cordicInit x0 y0 z0) (x0, y0, z0) (by simp [cordicInit, setReg]) i
    (fun j hj => (specIter_fits mode x0 y0 z0 hx hy hz j (by omega)).1)

/-- C23: no accumulator overflow on the inputs the entry points supply. For every `x0`, `y0`,
`z0` of absolute value at most `2^24` and either mode, every stage value `x_i`, `y_i`, `z_i`
for `0 ≤ i ≤ 24` held in the 64-bit register arrays lies in the signed 32-bit range, so
narrowing the last stage into the `int` fields of the returned `vector3` changes no value. -/
theorem cordic_no_overflow (x0 y0 z0 : Int) (mode : cordic_mode_t)
    (hx : |x0| ≤ 2 ^ 24) (hy : |y0| ≤ 2 ^ 24) (hz : |z0| ≤ 2 ^ 24) :
    (∀ i : Nat, i ≤ 24 →
      isInt ((cordicLoop mode ATANTABLESZ (cordicInit x0 y0 z0)).x_vec i) ∧
      isInt ((cordicLoop mode ATANTABLESZ (cordicInit x0 y0 z0)).y_vec i) ∧
      isInt ((cordicLoop mode ATANTABLESZ (cordicInit x0 y0 z0)).z_vec i)) ∧
    cordic x0 y0 z0 mode =
      { x := (cordicLoop mode ATANTABLESZ (cordicInit x0 y0 z0)).x_vec ATANTABLESZ
        y := (cordicLoop mode ATANTABLESZ (cordicInit x0 y0 z0)).y_vec ATANTABLESZ
        z := (cordicLoop mode ATANTABLESZ (cordicInit x0 y0 z0)).z_vec ATANTABLESZ } := by
  have hx2 : -16777216 ≤ x0 ∧ x0 ≤ 16777216 := by
    have := abs_le.mp hx; norm_num at this; exact this
  have hy2 : -16777216 ≤ y0 ∧ y0 ≤ 16777216 := by
    have := abs_le.mp hy; norm_num at this; exact this
  have hz2 : -16777216 ≤ z0 ∧ z0 ≤ 16777216 := by
    have := abs_le.mp hz; norm_num at this; exact this
  have key : ∀ i : Nat, i ≤ 24 →
      isInt ((cordicLoop mode ATANTABLESZ (cordicInit x0 y0 z0)).x_vec i) ∧
      isInt ((cordicLoop mode ATANTABLESZ (cordicInit x0 y0 z0)).y_vec i) ∧
      isInt ((cordicLoop mode ATANTABLESZ (cordicInit x0 y0 z0)).z_vec i) := by
    intro i hi
    have e := cordicRegs_eq_specIter mode x0 y0 z0 hx2 hy2 hz2 i hi
    have f := (specIter_fits mode x0 y0 z0 hx2 hy2 hz2 i hi).1
    rw [← e] at f
    exact f
  refine ⟨key, ?_⟩
  obtain ⟨f1, f2, f3⟩ := key 24 (le_refl _)
  have e : cordic x0 y0 z0 mode =
      { x := wrapS 32 ((cordicLoop mode ATANTABLESZ (cordicInit x0 y0 z0)).x_vec ATANTABLESZ)
        y := wrapS 32 ((cordicLoop mode ATANTABLESZ (cordicInit x0 y0 z0)).y_vec ATANTABLESZ)
        z := wrapS 32 ((cordicLoop mode ATANTABLESZ (cordicInit x0 y0 z0)).z_vec ATANTABLESZ) } :=
    rfl
  rw [e]
  have e24 : ATANTABLESZ = 24 := rfl
  rw [e24]
  rw [e24] at f1 f2 f3
  rw [wrapS32_of_isInt _ f1, wrapS32_of_isInt _ f2, wrapS32_of_isInt _ f3]

set_option maxRecDepth 100000 in
/-- Witness of C23 at the sine/cosine seed `(0x9B6F23, 0, 2^23 - 2)` in `ROTATION` mode. -/
theorem cordic_no_overflow_witness :
    (|(10186531 : Int)| ≤ 2 ^ 24 ∧ |(0 : Int)| ≤ 2 ^ 24 ∧ |(8388606 : Int)| ≤ 2 ^ 24) ∧
    (∀ i : Nat, i ≤ 24 →
      isInt ((cordicLoop ROTATION ATANTABLESZ (cordicInit 10186531 0 8388606)).x_vec i) ∧
      isInt ((cordicLoop ROTATION ATANTABLESZ (cordicInit 10186531 0 8388606)).y_vec i) ∧
      isInt ((cordicLoop ROTATION ATANTABLESZ (cordicInit 10186531 0 8388606)).z_vec i)) :=
  ⟨by decide, (cordic_no_overflow 10186531 0 8388606 ROTATION (by decide) (by decide)
    (by decide)).1⟩


/-! ## Sine and cosine: the engine angle and the half-turn -/

theorem specFoldAngle_range (theta : Int) :
    0 ≤ specFoldAngle theta ∧ specFoldAngle theta ≤ 4194303 := by
  have hm0 : 0 ≤ theta % 4194304 := Int.emod_nonneg _ (by norm_num)
  have hm1 : theta % 4194304 < 4194304 := Int.emod_lt_of_pos _ (by norm_num)
  unfold specFoldAngle
  split <;> omega

/-- The angle handed to the engine is twice the folded angle. -/
theorem sinCosAngle_eq (theta : Int) : sinCosAngle theta = some (specFoldAngle theta * 2) := by
  have h22 := specBit_range theta 22
  have h23 := specBit_range theta 23
  have hm0 : 0 ≤ theta % 4194304 := Int.emod_nonneg _ (by norm_num)
  have hm1 : theta % 4194304 < 4194304 := Int.emod_lt_of_pos _ (by norm_num)
  have rows := sinCosSelect_rows (theta % 4194304)
  have em : wrapS 32 (0x003fffff - theta % 4194304) = 0x3FFFFF - theta % 4194304 :=
    wrapS32_of_isInt _ (by unfold isInt; omega)
  have es : ∀ f : Int, 0 ≤ f ∧ f ≤ 4194303 → wrapS 32 (shl f 1) = f * 2 := by
    intro f hf
    unfold shl
    norm_num
    apply wrapS32_of_isInt
    unfold isInt
    omega
  unfold sinCosAngle
  simp only [andW32_low22]
  rw [bit_char_eq theta 23, bit_char_eq theta 22]
  unfold specFoldAngle
  rcases h23 with a | a <;> rcases h22 with b | b <;> rw [a, b]
  · rw [rows.1]
    simp only [Option.map_some', if_true]
    rw [es _ ⟨hm0, by omega⟩]
  · rw [rows.2.1, em]
    simp only [Option.map_some']
    rw [es _ ⟨by omega, by omega⟩, if_neg (by decide)]
  · rw [rows.2.2.1]
    simp only [Option.map_some', if_true]
    rw [es _ ⟨hm0, by omega⟩]
  · rw [rows.2.2.2, em]
    simp only [Option.map_some']
    rw [es _ ⟨by omega, by omega⟩, if_neg (by decide)]

/-- C22: for every `theta` in `[0, 2^24)` the initial angle `z0` that `sin_cos_cordic_24b`
passes to the engine satisfies `0 ≤ z0 ≤ 2^23 - 2`, which is within the table's cumulative sum
`9309768`; the engine is invoked inside its convergence range, and its angle accumulator
ends with `|z| ≤ 1`. -/
theorem sin_cos_angle_in_range (theta : Int) (h0 : 0 ≤ theta) (h1 : theta < 2 ^ 24) :
    ∃ z0 : Int, sinCosAngle theta = some z0 ∧ 0 ≤ z0 ∧ z0 ≤ 2 ^ 23 - 2 ∧
      (2 : Int) ^ 23 - 2 ≤ atanTable.sum ∧ atanTable.sum = 9309768 ∧
      |(cordic cordic_gain_inv_24b 0 z0 ROTATION).z| ≤ 1 ∧
      sin_cos_cordic_24b theta =
        some
          { cos := if specBit theta 23 ≠ specBit theta 22 then
                -(cordic cordic_gain_inv_24b 0 z0 ROTATION).x
              else (cordic cordic_gain_inv_24b 0 z0 ROTATION).x
            sin := if specBit theta 23 = 1 then -(cordic cordic_gain_inv_24b 0 z0 ROTATION).y
              else (cordic cordic_gain_inv_24b 0 z0 ROTATION).y } := by
  have hr := specFoldAngle_range theta
  refine ⟨specFoldAngle theta * 2, sinCosAngle_eq theta, by omega, by norm_num; omega,
    by decide, by decide, ?_, ?_⟩
  · have h := seqLoop_rotation_z cordic_gain_inv_24b 0 (specFoldAngle theta * 2)
      (by constructor <;> omega) 24 (le_refl _)
    have e : zBound 24 = 1 := by decide
    rw [e] at h
    rw [cordic_eq_seqLoop]
    simp only
    rw [wrapS32_of_isInt _ (by unfold isInt; omega)]
    exact abs_le.mpr h
  · rw [sin_cos_cordic_24b_eq_spec]
    rfl

set_option maxRecDepth 100000 in
/-- Witness of C22 at `theta = 0x7FFFFF`, which is mirrored to the folded angle `0`. -/
theorem sin_cos_angle_in_range_witness :
    ((0 : Int) ≤ 8388607 ∧ (8388607 : Int) < 2 ^ 24) ∧ sinCosAngle 8388607 = some 0 ∧
    sinCosAngle 4194303 = some 8388606 ∧
    ∃ z0 : Int, sinCosAngle 8388607 = some z0 ∧ 0 ≤ z0 ∧ z0 ≤ 2 ^ 23 - 2 := by
  obtain ⟨z0, h1, h2, h3, _⟩ := sin_cos_angle_in_range 8388607 (by decide) (by decide)
  exact ⟨by decide, by decide, by decide, z0, h1, h2, h3⟩

/-- C27: half-turn antisymmetry of the sine/cosine entry point. For every `theta` in
`[0, 2^23)`, if `sin_cos_cordic_24b(theta) = (c, s)` then
`sin_cos_cordic_24b(theta + 2^23) = (-c, -s)` exactly. -/
theorem sin_cos_half_turn (theta : Int) (h0 : 0 ≤ theta) (h1 : theta < 2 ^ 23) :
    ∃ c s : Int, sin_cos_cordic_24b theta = some { cos := c, sin := s } ∧
      sin_cos_cordic_24b (theta + 2 ^ 23) = some { cos := -c, sin := -s } := by
  have b22 : specBit (theta + 2 ^ 23) 22 = specBit theta 22 := by
    unfold specBit; norm_num; omega
  have b23 : specBit (theta + 2 ^ 23) 23 = 1 := by
    unfold specBit; norm_num; omega
  have a23 : specBit theta 23 = 0 := by
    unfold specBit; norm_num; omega
  have lo : (theta + 2 ^ 23) % 4194304 = theta % 4194304 := by
    norm_num; omega
  have hf : specFoldAngle (theta + 2 ^ 23) = specFoldAngle theta := by
    unfold specFoldAngle
    rw [b22, lo]
  refine ⟨(specSinCos theta).cos, (specSinCos theta).sin, sin_cos_cordic_24b_eq_spec theta, ?_⟩
  rw [sin_cos_cordic_24b_eq_spec]
  unfold specSinCos
  rw [hf, b22, b23, a23]
  rcases specBit_range theta 22 with b | b <;> rw [b] <;> simp

set_option maxRecDepth 100000 in
/-- Witness of C27 at `theta = 1000000`. -/
theorem sin_cos_half_turn_witness :
    ((0 : Int) ≤ 1000000 ∧ (1000000 : Int) < 2 ^ 23) ∧
    sin_cos_cordic_24b 1000000 = some { cos := 15612079, sin := 6136449 } ∧
    sin_cos_cordic_24b (1000000 + 2 ^ 23) = some { cos := -15612079, sin := -6136449 } := by
  obtain ⟨c, s, h1, h2⟩ := sin_cos_half_turn 1000000 (by decide) (by decide)
  have e : sin_cos_cordic_24b 1000000 = some { cos := 15612079, sin := 6136449 } := by decide
  rw [e] at h1
  injection h1 with h1
  injection h1 with hc hs
  subst hc hs
  exact ⟨by decide, e, h2⟩


/-! ## The sine/cosine seed -/

/-- C24 (as amended): the `x0` seed that `sin_cos_cordic_24b` passes to the engine,
`0x9B6F23 = 10186531`, is the gain-inverse constant at `2^24` scale computed from the gain
rounded to three decimals, as the source comment `(1/1.647 * 2^24)` says: it is the nearest
integer to `2^24 / 1.647`. Against the exact gain `K`, `K^2 = prod_{i=0}^{23} (1 + 4^-i)`,
the quotient `2^24 / K` lies between `10186531 + 1482` and `10186531 + 1483`. -/
theorem sin_cos_seed_constant :
    cordic_gain_inv_24b = 10186531 ∧
    (∀ theta : Int, sin_cos_cordic_24b theta =
      some
        { cos := if specBit theta 23 ≠ specBit theta 22 then
              -(cordic cordic_gain_inv_24b 0 (specFoldAngle theta * 2) ROTATION).x
            else (cordic cordic_gain_inv_24b 0 (specFoldAngle theta * 2) ROTATION).x
          sin := if specBit theta 23 = 1 then
              -(cordic cordic_gain_inv_24b 0 (specFoldAngle theta * 2) ROTATION).y
            else (cordic cordic_gain_inv_24b 0 (specFoldAngle theta * 2) ROTATION).y }) ∧
    |(cordic_gain_inv_24b : ℚ) - 2 ^ 24 / 1.647| ≤ 1 / 2 ∧
    ((cordic_gain_inv_24b : ℚ) + 1482) ^ 2 * cordicGainSq < 2 ^ 48 ∧
    2 ^ 48 < ((cordic_gain_inv_24b : ℚ) + 1483) ^ 2 * cordicGainSq := by
  refine ⟨rfl, fun theta => ?_, ?_, ?_, ?_⟩
  · rw [sin_cos_cordic_24b_eq_spec]
    rfl
  · unfold cordic_gain_inv_24b
    rw [abs_le]
    constructor <;> norm_num
  · unfold cordicGainSq ATANTABLESZ cordic_gain_inv_24b
    simp only [Finset.prod_range_succ, Finset.prod_range_zero]
    norm_num
  · unfold cordicGainSq ATANTABLESZ cordic_gain_inv_24b
    simp only [Finset.prod_range_succ, Finset.prod_range_zero]
    norm_num

/-- Counterexample to C24 as stated: `0x9B6F23` is not the nearest integer to `2^24 / K`,
since `(2 * 10186531 + 1)^2 * K^2 < 2^50`. -/
theorem sin_cos_seed_counterexample :
    (2 * (cordic_gain_inv_24b : ℚ) + 1) ^ 2 * cordicGainSq < 2 ^ 50 ∧
    ¬ ((2 * (cordic_gain_inv_24b : ℚ) - 1) ^ 2 * cordicGainSq ≤ 2 ^ 50 ∧
      2 ^ 50 ≤ (2 * (cordic_gain_inv_24b : ℚ) + 1) ^ 2 * cordicGainSq) := by
  have h : (2 * (cordic_gain_inv_24b : ℚ) + 1) ^ 2 * cordicGainSq < 2 ^ 50 := by
    unfold cordicGainSq ATANTABLESZ cordic_gain_inv_24b
    simp only [Finset.prod_range_succ, Finset.prod_range_zero]
    norm_num
  exact ⟨h, fun hc => absurd hc.2 (not_le.mpr h)⟩

/-! ## The mask of the 16-bit arctangent -/

set_option maxRecDepth 100000 in
/-- C25, the code at the failing input: for `(1, 32767)`, in quadrant 0 just below the
quarter turn, the engine angle rounds to `round_i(z, 9) = 16385`, above `16383`; the mask
`& 0x3FFF` drops the carry and `arctan_cordic(1, 32767)` is `1`, the lower boundary of the
quadrant. The 24-bit sibling adds before masking and returns `4194432`, in quadrant 1. -/
theorem arctan_cordic_mask_drops_carry :
    checkQuadrant 1 32767 0 = { x := 1, y := 32767, z := 0 } ∧
    (cordic 1 32767 0 VECTOR).z = 8388864 ∧
    round_i (cordic 1 32767 0 VECTOR).z 9 = 16385 ∧
    arctan_cordic 1 32767 = 1 ∧
    ¬ (arctan_cordic 1 32767 =
      (checkQuadrant 1 32767 0).z * 16384 + round_i (cordic 1 32767 0 VECTOR).z 9) ∧
    arctan_cordic 1 30000 = 1 ∧
    arctan_cordic_24b 1 32767 = 4194432 := by
  decide

end Cordic
